import Mathlib

/-!
Verification of the vulcand/route request-routing core against its
natural-language specification.

The Go source is shallowly embedded:
* Go `byte` is modelled as `Char` (all inputs of interest are ASCII bytes;
  the zero byte is `byte0`), and a Go `string` as `List Char`;
* the mutable `charIter` of `iter.go` becomes a value of the structure
  `charIter`, and every mutating method returns the updated iterator;
* unbounded Go `for` loops become fuel-indexed recursions; each public
  wrapper supplies fuel that is provably sufficient (the fuel-zero branch is
  unreachable for the wrapper's fuel), so the wrappers compute exactly what
  the loops compute and still reduce inside the kernel;
* Go `int` fields that the code can drive below zero (`trieNode.level`,
  parse offsets) are modelled as `Int`;
* out-of-range Go indexing panics; the model reads with `getD` defaults.
  All theorems are stated on states the Go code can actually reach, where
  the two agree;
* the router of `router.go` is generic over the `matcher` interface, so it
  is embedded generically over a record of matcher operations.
-/

set_option maxHeartbeats 1000000

namespace Route

/-- Go strings are byte strings; a byte is modelled as a `Char`. -/
abbrev Str := List Char

/-- the zero byte, returned by `charIter.next` at end of input -/
def byte0 : Char := Char.ofNat 0

/-! ## The character iterator (`iter.go`) -/

/-- position in the iterator (`charPos` in `iter.go`) -/
structure charPos where
  i : Nat
  si : Nat
deriving DecidableEq, Repr

/-- iterator over a sequence of strings with per-string separators
(`charIter` in `iter.go`) -/
structure charIter where
  i : Nat
  si : Nat
  seq : List Str
  sep : List Char
deriving DecidableEq, Repr

/-- `newIter` from `iter.go` -/
def newIter (seq : List Str) (sep : List Char) : charIter := ⟨0, 0, seq, sep⟩

namespace charIter

/-- the current string `seq[si]`; Go panics when `si` is out of range, the
model reads `[]` (such states are unreachable from `newIter`) -/
def curStr (c : charIter) : Str := c.seq.getD c.si []

/-- `level` from `iter.go` -/
def level (c : charIter) : Nat := c.si

/-- `isEnd` from `iter.go`; `seq.length - 1 ≤ si` is Go's `si >= len(seq)-1`
(at `len(seq) = 0` both sides of the translation are true) -/
def isEnd (c : charIter) : Bool :=
  c.seq.length == 0 ||
    (decide (c.seq.length - 1 ≤ c.si) && decide (c.curStr.length ≤ c.i)) ||
    c.curStr.length == 0

/-- `position` from `iter.go` -/
def position (c : charIter) : charPos := ⟨c.i, c.si⟩

/-- `setPosition` from `iter.go` -/
def setPosition (c : charIter) (p : charPos) : charIter :=
  { c with i := p.i, si := p.si }

/-- `pushBack` from `iter.go` -/
def pushBack (c : charIter) : charIter :=
  if c.i = 0 ∧ c.si = 0 then c
  else if c.i = 0 then { c with si := c.si - 1, i := (c.seq.getD (c.si - 1) []).length - 1 }
  else { c with i := c.i - 1 }

/-- `next` from `iter.go`: returns `(byte, separator, ok)` and the advanced
iterator -/
def next (c : charIter) : (Char × Char × Bool) × charIter :=
  if c.isEnd then ((byte0, byte0, false), c)
  else
    let b := c.curStr.getD c.i byte0
    let sp := c.sep.getD c.si byte0
    if c.curStr.length ≤ c.i + 1 ∧ c.si < c.seq.length - 1 then
      ((b, sp, true), { c with si := c.si + 1, i := 0 })
    else
      ((b, sp, true), { c with i := c.i + 1 })

/-- an upper bound on the number of characters `next` can still deliver;
used as fuel for the Go loops that repeatedly call `next` -/
def fuelOf (c : charIter) : Nat :=
  let k := (c.seq.map List.length).foldr max 0
  (c.seq.length - c.si) * (k + 1) + (c.curStr.length - c.i)

end charIter

theorem le_foldr_max {l : List Nat} {x : Nat} (h : x ∈ l) : x ≤ l.foldr max 0 := by
  induction l with
  | nil => cases h
  | cons y ys ih =>
    rcases List.mem_cons.1 h with rfl | h2
    · exact Nat.le_max_left _ _
    · exact Nat.le_trans (ih h2) (Nat.le_max_right _ _)

/-- the facts packed into `isEnd = false` -/
theorem isEnd_false_facts (c : charIter) (he : c.isEnd = false) :
    c.seq.length ≠ 0 ∧ c.curStr.length ≠ 0 ∧
      (c.seq.length - 1 ≤ c.si → c.i < c.curStr.length) := by
  have hne : ¬ (c.seq.length == 0 ||
      (decide (c.seq.length - 1 ≤ c.si) && decide (c.curStr.length ≤ c.i)) ||
      c.curStr.length == 0) = true := by
    intro hcon
    rw [charIter.isEnd] at he
    rw [hcon] at he
    cases he
  simp only [Bool.or_eq_true, beq_iff_eq, Bool.and_eq_true, decide_eq_true_eq,
    not_or, not_and_or, not_le] at hne
  obtain ⟨⟨hlen0, hmid⟩, hcur0⟩ := hne
  refine ⟨hlen0, hcur0, fun hle => ?_⟩
  rcases hmid with hm | hm
  · omega
  · exact hm

/-- whenever `next` delivers a character, the fuel bound strictly decreases -/
theorem next_fuelOf_lt (c : charIter) (h : (c.next).1.2.2 = true) :
    charIter.fuelOf (c.next).2 < charIter.fuelOf c := by
  have he : c.isEnd = false := by
    by_contra hcon
    have htrue : c.isEnd = true := by revert hcon; cases c.isEnd <;> simp
    rw [charIter.next] at h
    simp [htrue] at h
  obtain ⟨hlen0, hcur0, hmid⟩ := isEnd_false_facts c he
  rw [charIter.next]
  simp only [he, Bool.false_eq_true, if_false]
  by_cases hcross : c.curStr.length ≤ c.i + 1 ∧ c.si < c.seq.length - 1
  · rw [if_pos hcross]
    rw [charIter.fuelOf, charIter.fuelOf]
    simp only [charIter.curStr]
    obtain ⟨_, hsi⟩ := hcross
    have hsi1 : c.si + 1 < c.seq.length := by omega
    have hmem : (c.seq.getD (c.si + 1) []).length ∈ c.seq.map List.length := by
      refine List.mem_map.2 ⟨c.seq.getD (c.si + 1) [], ?_, rfl⟩
      rw [List.getD_eq_getElem?_getD, List.getElem?_eq_getElem hsi1]
      exact List.getElem_mem _
    have hk := le_foldr_max hmem
    have h1 : c.seq.length - c.si = (c.seq.length - (c.si + 1)) + 1 := by omega
    rw [h1]
    have hexp : ((c.seq.length - (c.si + 1)) + 1) * ((c.seq.map List.length).foldr max 0 + 1)
        = (c.seq.length - (c.si + 1)) * ((c.seq.map List.length).foldr max 0 + 1)
          + ((c.seq.map List.length).foldr max 0 + 1) := by ring
    omega
  · rw [if_neg hcross]
    rw [charIter.fuelOf, charIter.fuelOf]
    simp only [charIter.curStr]
    have hicur : c.i < c.curStr.length := by
      by_cases hsil : c.seq.length - 1 ≤ c.si
      · exact hmid hsil
      · rcases Classical.not_and_iff_or_not_not.1 hcross with hx | hx
        · omega
        · omega
    simp only [charIter.curStr] at hicur
    omega

/-! ## Pattern matchers (`trie.go`) -/

/-- the three named pattern matchers of `trie.go`; each carries its name -/
inductive PatternMatcher where
  | stringM (name : Str)
  | pathM (name : Str)
  | intM (name : Str)
deriving DecidableEq, Repr

/-- `patternMatcher.equals` from `trie.go`: same concrete type and same name -/
def pmEquals : PatternMatcher → PatternMatcher → Bool
  | .stringM a, .stringM b => a = b
  | .pathM a, .pathM b => a = b
  | .intM a, .intM b => a = b
  | _, _ => false

/-- `unicode.IsDigit(rune(c))` for a byte `c`: exactly the ASCII digits -/
def isGoDigit (c : Char) : Bool := decide ('0' ≤ c) && decide (c ≤ '9')

/-- the loop body of `stringMatcher.grabValue`: consume until end of input or
until a byte equal to the current separator is seen (then push it back) -/
def grabStringF : Nat → charIter → charIter
  | 0, it => it
  | fuel + 1, it =>
    let r := it.next
    if r.1.2.2 = false then r.2
    else if r.1.1 = r.1.2.1 then r.2.pushBack
    else grabStringF fuel r.2

/-- the loop body of `pathMatcher.grabValue`: consume everything to the end -/
def grabPathF : Nat → charIter → charIter
  | 0, it => it
  | fuel + 1, it =>
    let r := it.next
    if r.1.2.2 = true then grabPathF fuel r.2 else r.2

/-- `pushBack` applied `n` times (the rollback loop of `intMatcher.match`) -/
def pushBackN (it : charIter) : Nat → charIter
  | 0 => it
  | n + 1 => pushBackN it.pushBack n

/-- the loop of `intMatcher.match` from `trie.go`, with the running count of
consumed characters -/
def intMatchF : Nat → charIter → Nat → Bool × charIter
  | 0, it, _ => (false, it)
  | fuel + 1, it, count =>
    let r := it.next
    if isGoDigit r.1.1 = false then
      if r.1.1 = r.1.2.1 then (true, r.2.pushBack)
      else (false, pushBackN r.2 (count + 1))
    else if r.1.2.2 = false then (true, r.2)
    else intMatchF fuel r.2 (count + 1)

/-- `stringMatcher.match`: always true, iterator advanced by `grabValue` -/
def stringMatcherMatch (it : charIter) : Bool × charIter :=
  (true, grabStringF (it.fuelOf + 1) it)

/-- `pathMatcher.match`: always true, iterator advanced by `grabValue` -/
def pathMatcherMatch (it : charIter) : Bool × charIter :=
  (true, grabPathF (it.fuelOf + 1) it)

/-- `intMatcher.match` from `trie.go` -/
def intMatcherMatch (it : charIter) : Bool × charIter :=
  intMatchF (it.fuelOf + 1) it 0

/-- dispatch of `patternMatcher.match` on the matcher variant -/
def pmMatch : PatternMatcher → charIter → Bool × charIter
  | .stringM _, it => stringMatcherMatch it
  | .pathM _, it => pathMatcherMatch it
  | .intM _, it => intMatcherMatch it

/-- iterator states reachable from `newIter`: either at end, or the byte
offset points inside the current string.  Go maintains this invariant
implicitly; out-of-range offsets would panic there. -/
def ValidPos (it : charIter) : Prop :=
  it.isEnd = true ∨ it.i < it.curStr.length

instance (it : charIter) : Decidable (ValidPos it) :=
  inferInstanceAs (Decidable (it.isEnd = true ∨ it.i < it.curStr.length))

/-! ## Trie nodes (`trie.go`) -/

variable {α : Type}

/-- `trieNode` from `trie.go`.  The Go back-pointer `trie *trie` is only
used for construction bookkeeping and never read by `match`, `merge` or
`equals`, so it is dropped.  `matches` holds the payloads of the shared
`*match` results. -/
inductive trieNode (α : Type) where
  | mk (char : Char) (patternMatcher : Option PatternMatcher) (matchs : List α)
      (level : Int) (children : List (trieNode α))

def trieNode.char : trieNode α → Char
  | .mk c _ _ _ _ => c

def trieNode.patternMatcher : trieNode α → Option PatternMatcher
  | .mk _ p _ _ _ => p

def trieNode.matchs : trieNode α → List α
  | .mk _ _ m _ _ => m

def trieNode.level : trieNode α → Int
  | .mk _ _ _ l _ => l

def trieNode.children : trieNode α → List (trieNode α)
  | .mk _ _ _ _ cs => cs

mutual
/-- depth of a trie node: the canonical fuel for the Go recursions over the
trie structure (`match`, `merge`, `setLevel`, `findMatchNode`), all of which
descend strictly into children -/
def nodeDepth : trieNode α → Nat
  | .mk _ _ _ _ cs => 1 + listDepth cs

def listDepth : List (trieNode α) → Nat
  | [] => 0
  | c :: rest => max (nodeDepth c) (listDepth rest)
end

/-- `trieNode.isRoot` from `trie.go` -/
def trieNode.isRoot (t : trieNode α) : Bool :=
  decide (t.char = byte0) && t.patternMatcher.isNone

/-- `trieNode.equals` from `trie.go`, with Go's `&&`/`||` precedence kept:
the level and char comparisons belong only to the first disjunct, so two
pattern nodes compare equal whenever their matchers are equal. -/
def trieNode.equalsGo (t o : trieNode α) : Bool :=
  (decide (t.level = o.level) && decide (t.char = o.char)
      && t.patternMatcher.isNone && o.patternMatcher.isNone)
    || (t.patternMatcher.isSome && o.patternMatcher.isSome
        && pmEquals (t.patternMatcher.getD (.stringM [])) (o.patternMatcher.getD (.stringM [])))

/-- `trieNode.matchNode` from `trie.go` -/
def trieNode.matchNode (t : trieNode α) (it : charIter) : Bool × charIter :=
  if (it.level : Int) ≠ t.level then (false, it)
  else if t.isRoot then (true, it)
  else
    match t.patternMatcher with
    | some pm => pmMatch pm it
    | none =>
      let r := it.next
      if r.1.2.2 = false then (false, r.2)
      else if r.1.1 ≠ t.char then (false, r.2.pushBack)
      else (true, r.2)

/-- `trieNode.match` from `trie.go`.  The child loop is `findSome?`: each
child starts from the saved position (`i.setPosition(p)` restores the
iterator after a failed branch, so in the value model every child is tried
on the same iterator, and the loop stops at the first success).  The fuel
only bounds the depth of the recursion through children; `matchW` supplies
a sufficient bound. -/
def matchTrieF : Nat → trieNode α → charIter → Option α
  | 0, _, _ => none
  | fuel + 1, t, it =>
    let r := t.matchNode it
    if r.1 = false then none
    else if t.matchs.isEmpty = false ∧ r.2.isEnd = true then t.matchs.head?
    else
      match t.children.findSome? (fun c => matchTrieF fuel c r.2) with
      | some m => some m
      | none =>
        if t.matchs.isEmpty = false ∧ (r.2.level : Int) > t.level then t.matchs.head?
        else none

/-- `trieNode.match` with depth fuel `nodeDepth t`, which always suffices -/
def trieNode.matchW (t : trieNode α) (it : charIter) : Option α :=
  matchTrieF (nodeDepth t) t it

/-- `trieNode.merge` from `trie.go`.  The pointer-keyed `merged` set marks a
child as merged exactly when some child of the other node compares
`equals`-equal to it, and every equal pair (in nested loop order) produces a
merged child; unmerged children of `t` are appended first, then those of
`o`.  The Go error result is always `nil`, so the model is total. -/
def mergeNodeF : Nat → trieNode α → trieNode α → trieNode α
  | 0, t, _ => t
  | fuel + 1, t, o =>
    let pairs := t.children.flatMap
      (fun c => (o.children.filter (fun c2 => trieNode.equalsGo c c2)).map
        (fun c2 => mergeNodeF fuel c c2))
    let unmergedT := t.children.filter
      (fun c => ! o.children.any (fun c2 => trieNode.equalsGo c c2))
    let unmergedO := o.children.filter
      (fun c2 => ! t.children.any (fun c => trieNode.equalsGo c c2))
    .mk t.char t.patternMatcher (t.matchs ++ o.matchs) t.level
      (pairs ++ unmergedT ++ unmergedO)

/-- `trieNode.merge` with depth fuel `nodeDepth t`, which always suffices -/
def trieNode.mergeW (t o : trieNode α) : trieNode α :=
  mergeNodeF (nodeDepth t) t o

/-- `trieNode.setLevel` from `trie.go`: roots increment the level, a node
with matches stops the recursion -/
def setLevelF : Nat → Int → trieNode α → trieNode α
  | 0, _, t => t
  | fuel + 1, lvl, t =>
    let lvl2 := if t.isRoot = true then lvl + 1 else lvl
    if t.matchs.isEmpty = false then .mk t.char t.patternMatcher t.matchs lvl2 t.children
    else .mk t.char t.patternMatcher t.matchs lvl2 (t.children.map (setLevelF fuel lvl2))

/-- replace the first list element on which `f` succeeds, keeping the rest -/
def replaceFirstSome (f : β → Option β) : List β → Option (List β)
  | [] => none
  | c :: rest =>
    match f c with
    | some c2 => some (c2 :: rest)
    | none => (replaceFirstSome f rest).map (fun l => c :: l)

/-- `trieNode.findMatchNode` combined with the mutation done by
`trie.chain`: locate the first node (depth-first) with non-empty `matches`,
clear its matches and make `other` its only child.  `none` models the Go nil
dereference when no match node exists. -/
def attachAtMatchNodeF : Nat → trieNode α → trieNode α → Option (trieNode α)
  | 0, _, _ => none
  | fuel + 1, t, other =>
    if t.matchs.isEmpty = false then some (.mk t.char t.patternMatcher [] t.level [other])
    else
      (replaceFirstSome (fun c => attachAtMatchNodeF fuel c other) t.children).map
        (fun cs => .mk t.char t.patternMatcher t.matchs t.level cs)

/-! ## Expression parsing into a trie (`trie.go`) -/

/-- the anchored regular expression `^<([^>]+)>` applied to `rest`: returns
the captured group and the length of the whole match -/
def reParamGroup (rest : Str) : Option (Str × Nat) :=
  match rest with
  | '<' :: tail =>
    let grp := tail.takeWhile (fun c => c ≠ '>')
    if grp ≠ [] ∧ tail.getD grp.length byte0 = '>' then some (grp, grp.length + 2)
    else none
  | _ => none

def strString : Str := ['s', 't', 'r', 'i', 'n', 'g']
def strPath : Str := ['p', 'a', 't', 'h']
def strInt : Str := ['i', 'n', 't']

/-- `makeMatcher` with `newStringMatcher`/`newPathMatcher`/`newIntMatcher`
from `trie.go`: one argument exactly, else an error (`none`) -/
def makeMatcher (ty : Str) (args : List Str) : Option PatternMatcher :=
  if ty = strString then
    if args.length = 1 then some (.stringM (args.headD [])) else none
  else if ty = strPath then
    if args.length = 1 then some (.pathM (args.headD [])) else none
  else if ty = strInt then
    if args.length = 1 then some (.intM (args.headD [])) else none
  else none

/-- `parsePatternMatcher` from `trie.go`.  `Except.error` is a malformed
matcher (surfaced as a parse error); `.ok (none, -1)` means no pattern
starts here. -/
def parsePatternMatcherGo (offset : Int) (pattern : Str) :
    Except Unit (Option PatternMatcher × Int) :=
  if pattern.getD offset.toNat byte0 ≠ '<' then .ok (none, -1)
  else
    match reParamGroup (pattern.drop offset.toNat) with
    | none => .ok (none, -1)
    | some (grp, matchLen) =>
      let values := grp.splitOn ':'
      let ty := if values.length = 1 then strString else values.headD []
      let args := if values.length = 1 then values else values.tail
      match makeMatcher ty args with
      | none => .error ()
      | some pm => .ok (some pm, offset + matchLen)

/-- `trieNode.parseExpression` from `trie.go`, returning the children and
matches of the node at `offset` (the Go code mutates the node in place).
Fuel `pattern.length + 2` suffices: the offset starts at `-1` and strictly
increases. -/
def parseRestF (fuel : Nat) (pattern : Str) (m : α) (offset : Int) :
    Option (List (trieNode α) × List α) :=
  match fuel with
  | 0 => none
  | fuel + 1 =>
    if offset ≥ (pattern.length : Int) - 1 then some ([], [m])
    else
      match parsePatternMatcherGo (offset + 1) pattern with
      | .error _ => none
      | .ok (some pm, newOffset) =>
        (parseRestF fuel pattern m (newOffset - 1)).map
          (fun r => ([.mk byte0 (some pm) r.2 0 r.1], []))
      | .ok (none, _) =>
        (parseRestF fuel pattern m (offset + 1)).map
          (fun r => ([.mk (pattern.getD (offset + 1).toNat byte0) none r.2 0 r.1], []))

/-! ## Request mappers (`mapper.go`) -/

/-- the four primitive request mappers -/
inductive BaseMapper where
  | methodB | hostB | pathB | headerB (name : Str)
deriving DecidableEq, Repr

/-- a mapper is a primitive or a flattened sequence (`seqMapper`;
`newSeqMapper` always flattens, so elements are primitive) -/
inductive Mapper where
  | base (b : BaseMapper)
  | seq (ms : List BaseMapper)
deriving DecidableEq, Repr

/-- `pathSep`, `domainSep`, `headerSep`, `methodSep` from `mapper.go` -/
def BaseMapper.separator : BaseMapper → Char
  | .methodB => ' '
  | .hostB => '.'
  | .pathB => '/'
  | .headerB _ => '/'

/-- separator of a mapper; `seqMapper.separator` reads `seq[0]` (Go panics
on an empty sequence; constructed sequences are never empty) -/
def Mapper.separator : Mapper → Char
  | .base b => b.separator
  | .seq ms => (ms.headD .methodB).separator

/-- ASCII lowering, the fragment of Go `strings.ToLower` relevant to the
byte-level model -/
def asciiLower (c : Char) : Char :=
  if 'A' ≤ c ∧ c ≤ 'Z' then Char.ofNat (c.toNat + 32) else c

def lowerStr (s : Str) : Str := s.map asciiLower

/-- the read-only request view (spec §3): `rawPath` is the value produced by
the URL machinery of `RawPath`/`r.URL.Path` in `pathMapper.mapRequest`,
which the spec treats as an external collaborator -/
structure Request where
  method : Str
  host : Str
  rawPath : Str
  headers : List (Str × Str)

/-- `http.Header.Get`: case-insensitive lookup of the first value -/
def headerGet (hs : List (Str × Str)) (name : Str) : Str :=
  (hs.findSome? (fun p => if lowerStr p.1 = lowerStr name then some p.2 else none)).getD []

/-- `mapRequest` of the primitive mappers from `mapper.go`; the host is
lowercased and the `:port` suffix stripped, an empty path becomes `/` -/
def BaseMapper.mapRequest : BaseMapper → Request → Str
  | .methodB, r => r.method
  | .hostB, r => (lowerStr r.host).takeWhile (fun c => c ≠ ':')
  | .pathB, r => if r.rawPath = [] then ['/'] else r.rawPath
  | .headerB n, r => headerGet r.headers n

/-- `mapRequest` of a mapper (`seqMapper.mapRequest` joins the parts) -/
def Mapper.mapRequestM : Mapper → Request → Str
  | .base b, r => b.mapRequest r
  | .seq ms, r => (ms.map (fun b => b.mapRequest r)).flatten

/-- `newIter` of a mapper from `mapper.go` -/
def Mapper.newIterM : Mapper → Request → charIter
  | .base b, r => newIter [b.mapRequest r] [b.separator]
  | .seq ms, r => newIter (ms.map (fun b => b.mapRequest r)) (ms.map BaseMapper.separator)

def mapperToList : Mapper → List BaseMapper
  | .base b => [b]
  | .seq ms => ms

/-- `newSeqMapper` from `mapper.go`: concatenation with flattening -/
def newSeqMapper (a b : Mapper) : Mapper := .seq (mapperToList a ++ mapperToList b)

/-- Modelled from the spec: `requestMapper.equivalent` lives in the current
`mapper.go`, which is not under `src/` (the copy there is an older revision
exposing only boolean `equals`).  Spec §3: two mappers are equivalent iff
same variant and same parameter; §4.3/§9: sequence mappers are equivalent
element-wise up to the shorter prefix and the merged mapper is the longer
one. -/
def Mapper.equivalent : Mapper → Mapper → Option Mapper
  | .base a, .base b => if a = b then some (.base a) else none
  | .seq a, .seq b =>
    if a.length ≤ b.length then
      if a = b.take a.length then some (.seq b) else none
    else
      if b = a.take b.length then some (.seq a) else none
  | _, _ => none

/-! ## Tries over mappers (`trie.go`) -/

/-- `trie` from `trie.go` -/
structure Trie (α : Type) where
  root : trieNode α
  mapper : Mapper

/-- `newTrieMatcher` from `trie.go`: empty expressions are an error; parsing
starts at offset `-1` on a root node -/
def newTrieMatcher (expression : Str) (mapper : Mapper) (m : α) : Option (Trie α) :=
  if expression = [] then none
  else
    (parseRestF (expression.length + 2) expression m (-1)).map
      (fun r => ⟨.mk byte0 none r.2 0 r.1, mapper⟩)

/-- `trie.canMerge` from `trie.go` (both tries, equivalent mappers) -/
def Trie.canMergeT (t o : Trie α) : Bool :=
  (t.mapper.equivalent o.mapper).isSome

/-- `trie.merge` from `trie.go` -/
def Trie.mergeT (t o : Trie α) : Option (Trie α) :=
  match t.mapper.equivalent o.mapper with
  | none => none
  | some mp => some ⟨t.root.mergeW o.root, mp⟩

/-- `trie.chain` from `trie.go`: clear the match node, attach the other
root below it, renumber levels from `-1`, join the mappers -/
def Trie.chainT (t o : Trie α) : Option (Trie α) :=
  (attachAtMatchNodeF (nodeDepth t.root) t.root o.root).map
    (fun r => ⟨setLevelF (nodeDepth r) (-1) r, newSeqMapper t.mapper o.mapper⟩)

/-- `trie.match` from `trie.go` -/
def Trie.matchReq (t : Trie α) (r : Request) : Option α :=
  t.root.matchW (t.mapper.newIterM r)

/-- `hostTrieMatcher` from `matcher.go`: the pattern is lowercased -/
def hostTrieMatcher (hostname : Str) (m : α) : Option (Trie α) :=
  newTrieMatcher (lowerStr hostname) (.base .hostB) m

/-- `regexpMatcher` from `matcher.go`; the compiled Go regexp is opaque, so
its matching function is a parameter of the theorems that mention it -/
structure RegexpMatcher (α : Type) where
  expr : Str
  mapper : Mapper
  result : α

/-- `hostRegexpMatcher` from `matcher.go`: the pattern is lowercased -/
def hostRegexpMatcher (hostname : Str) (m : α) : RegexpMatcher α :=
  ⟨lowerStr hostname, .base .hostB, m⟩

/-- `regexpMatcher.match` from `matcher.go`, over an abstract regexp engine
`eng` (Go `regexp.MatchString`) -/
def regexpMatchReq (eng : Str → Str → Bool) (rm : RegexpMatcher α) (r : Request) : Option α :=
  if eng rm.expr (rm.mapper.mapRequestM r) then some rm.result else none

/-! ## The route table (`router.go`), generic over the matcher interface -/

variable {M Req : Type}

/-- the part of the `matcher` interface that `router.go` uses -/
structure MatcherOps (M Req α : Type) where
  matchFn : M → Req → Option α
  canMergeFn : M → M → Bool
  mergeFn : M → M → Option M

/-- `router` from `router.go`: the compiled matcher list and the route
table.  The Go map is modelled as an association list with distinct keys. -/
structure RouterState (M α : Type) where
  matchers : List M
  routes : List (Str × α)

/-- map lookup `r.routes[expr]` -/
def lookupRoute : List (Str × α) → Str → Option α
  | [], _ => none
  | p :: rest, e => if p.1 = e then some p.2 else lookupRoute rest e

/-- map deletion `delete(r.routes, expr)` -/
def eraseRoute : List (Str × α) → Str → List (Str × α)
  | [], _ => []
  | p :: rest, e => if p.1 = e then eraseRoute rest e else p :: eraseRoute rest e

/-- map assignment `r.routes[expr] = result` -/
def setRoute (rs : List (Str × α)) (e : Str) (v : α) : List (Str × α) :=
  if (lookupRoute rs e).isSome then rs.map (fun p => if p.1 = e then (e, v) else p)
  else rs ++ [(e, v)]

/-- Go byte-wise string comparison `a < b` -/
def lexLt : Str → Str → Bool
  | [], [] => false
  | [], _ :: _ => true
  | _ :: _, [] => false
  | a :: as, b :: bs => if a < b then true else if b < a then false else lexLt as bs

def insertDesc (x : Str) : List Str → List Str
  | [] => [x]
  | y :: rest => if lexLt y x then x :: y :: rest else y :: insertDesc x rest

/-- `sort.Sort(sort.Reverse(sort.StringSlice(exprs)))`: the descending
ordering of the expressions (insertion sort; Go's unstable sort produces
the same list because map keys are pairwise distinct) -/
def sortDesc (l : List Str) : List Str := l.foldr insertDesc []

/-- the errors a mutation can surface -/
inductive RouteError where
  | duplicate | badExpr | compileFailed
deriving DecidableEq, Repr

/-- the loop of `router.compile`: `acc.getLast?` is `matchers[i-1]` guarded
by `i > 0` -/
def compileAcc (ops : MatcherOps M Req α) (parse : Str → α → Option M)
    (routes : List (Str × α)) : List Str → List M → Option (List M)
  | [], acc => some acc
  | e :: rest, acc =>
    match lookupRoute routes e with
    | none => none
    | some v =>
      match parse e v with
      | none => none
      | some m =>
        match acc.getLast? with
        | some last =>
          if ops.canMergeFn last m then
            match ops.mergeFn last m with
            | none => none
            | some merged => compileAcc ops parse routes rest (acc.dropLast ++ [merged])
          else compileAcc ops parse routes rest (acc ++ [m])
        | none => compileAcc ops parse routes rest (acc ++ [m])

/-- `router.compile` from `router.go` -/
def compileR (ops : MatcherOps M Req α) (parse : Str → α → Option M)
    (routes : List (Str × α)) : Option (List M) :=
  compileAcc ops parse routes (sortDesc (routes.map Prod.fst)) []

/-- `router.GetRoute` -/
def GetRoute (s : RouterState M α) (e : Str) : Option α :=
  lookupRoute s.routes e

/-- `router.AddRoute` from `router.go`: duplicate check, parse check, insert,
recompile; on a compile error the inserted binding is deleted again and the
old matchers stay -/
def AddRoute (ops : MatcherOps M Req α) (parse : Str → α → Option M)
    (s : RouterState M α) (e : Str) (v : α) : RouterState M α × Option RouteError :=
  if (lookupRoute s.routes e).isSome then (s, some .duplicate)
  else
    match parse e v with
    | none => (s, some .badExpr)
    | some _ =>
      let routes1 := s.routes ++ [(e, v)]
      match compileR ops parse routes1 with
      | some ms => (⟨ms, routes1⟩, none)
      | none => (⟨s.matchers, eraseRoute routes1 e⟩, some .compileFailed)

/-- `router.UpsertRoute` from `router.go` -/
def UpsertRoute (ops : MatcherOps M Req α) (parse : Str → α → Option M)
    (s : RouterState M α) (e : Str) (v : α) : RouterState M α × Option RouteError :=
  match parse e v with
  | none => (s, some .badExpr)
  | some _ =>
    let prev := lookupRoute s.routes e
    let routes1 := setRoute s.routes e v
    match compileR ops parse routes1 with
    | some ms => (⟨ms, routes1⟩, none)
    | none =>
      match prev with
      | some pv => (⟨s.matchers, setRoute routes1 e pv⟩, some .compileFailed)
      | none => (⟨s.matchers, eraseRoute routes1 e⟩, some .compileFailed)

/-- `router.RemoveRoute` from `router.go` -/
def RemoveRoute (ops : MatcherOps M Req α) (parse : Str → α → Option M)
    (s : RouterState M α) (e : Str) : RouterState M α × Option RouteError :=
  let routes1 := eraseRoute s.routes e
  match compileR ops parse routes1 with
  | some ms => (⟨ms, routes1⟩, none)
  | none => (⟨s.matchers, routes1⟩, some .compileFailed)

/-- the loop of `router.InitRoutes`: parse each entry, keep the ones seen so
far; the input map's iteration order is the list order -/
def initBuild (parse : Str → α → Option M) :
    List (Str × α) → List (Str × α) → List (Str × α) × Bool
  | [], acc => (acc, true)
  | (e, v) :: rest, acc =>
    match parse e v with
    | none => (acc, false)
    | some _ => initBuild parse rest (acc ++ [(e, v)])

/-- `router.InitRoutes` from `router.go`: `r.routes` is replaced by the new
map *before* the entries are parsed, so a parse error leaves the partially
built new map in place; the compiled matchers are only replaced at the end
of a successful `compile` -/
def InitRoutes (ops : MatcherOps M Req α) (parse : Str → α → Option M)
    (s : RouterState M α) (input : List (Str × α)) : RouterState M α × Option RouteError :=
  match initBuild parse input [] with
  | (acc, false) => (⟨s.matchers, acc⟩, some .badExpr)
  | (acc, true) =>
    match compileR ops parse acc with
    | some ms => (⟨ms, acc⟩, none)
    | none => (⟨s.matchers, acc⟩, some .compileFailed)

/-- `router.Route` from `router.go`: the Go signature is
`(interface{}, error)`; the model returns the payload (`l.val`) and the
error side by side -/
def RouteReq (ops : MatcherOps M Req α) (s : RouterState M α) (req : Req) :
    Option α × Option RouteError :=
  match s.matchers with
  | [] => (none, none)
  | _ :: _ => (s.matchers.findSome? (fun m => ops.matchFn m req), none)

/-- the compile algorithm exactly as claim C5 words it: sort the expression
strings in reverse lexicographic order, parse each in that order, and fold,
merging a new matcher into the last accumulator element iff the last
element's `canMerge` reports true, appending otherwise -/
def specMergeStep (ops : MatcherOps M Req α) (acc : List M) (m : M) : Option (List M) :=
  match acc.getLast? with
  | none => some (acc ++ [m])
  | some last =>
    if ops.canMergeFn last m then
      (ops.mergeFn last m).map (fun mm => acc.dropLast ++ [mm])
    else some (acc ++ [m])

def specCompile (ops : MatcherOps M Req α) (parse : Str → α → Option M)
    (routes : List (Str × α)) : Option (List M) :=
  (sortDesc (routes.map Prod.fst)).foldlM
    (fun acc e =>
      (lookupRoute routes e).bind (fun v => (parse e v).bind (specMergeStep ops acc)))
    []

/-- the naive router of spec §8 property 6 (the reference point of claim C2):
try the matchers one after the other, first non-nil match wins -/
def naiveRoute (ts : List (Trie α)) (r : Request) : Option α :=
  ts.findSome? (fun t => t.matchReq r)

/-! ## Chain-shaped tries

`parseExpression` produces a single chain of nodes, and `chain` concatenates
such chains across a dimension root.  `chainOf` builds exactly these shapes:
a root item raises the level by one (as `setLevel` does), a literal item is a
character node, a pattern item is a pattern-matcher node, and only the last
node of the chain carries matches. -/

inductive ChainItem where
  | rootI
  | litI (c : Char)
  | patI (pm : PatternMatcher)
deriving DecidableEq, Repr

def itemChar : ChainItem → Char
  | .litI c => c
  | _ => byte0

def itemPm : ChainItem → Option PatternMatcher
  | .patI pm => some pm
  | _ => none

/-- the level of the node made from an item, given the level `lvl` of its
parent: root items increment -/
def itemLevel (lvl : Int) : ChainItem → Int
  | .rootI => lvl + 1
  | _ => lvl

/-- build the chain trie for `h :: rest` with terminal matches `ms`, where
`lvl` is the level of the parent node (`-1` above the whole trie) -/
def chainOf (lvl : Int) (h : ChainItem) (rest : List ChainItem) (ms : List α) : trieNode α :=
  match rest with
  | [] => .mk (itemChar h) (itemPm h) ms (itemLevel lvl h) []
  | h2 :: rest2 =>
    .mk (itemChar h) (itemPm h) [] (itemLevel lvl h)
      [chainOf (itemLevel lvl h) h2 rest2 ms]

/-- literal items of well-formed chains never carry the zero byte (a byte
`0` inside a route pattern would make a literal node look like a root) -/
def ItemOk : ChainItem → Prop
  | .litI c => c ≠ byte0
  | _ => True

/-- a trie chain that contains a `<path:...>` pattern node followed by a
literal character node, with no matches at or above the path node: the part
of the chain below the path node is unreachable (claim C10) -/
inductive DeadPath : trieNode α → Prop where
  | stop : ∀ (ch : Char) (name : Str) (lv : Int) (c : trieNode α),
      c.patternMatcher = none → c.char ≠ byte0 →
      DeadPath (.mk ch (some (.pathM name)) [] lv [c])
  | step : ∀ (ch : Char) (lv : Int) (c : trieNode α),
      DeadPath c → DeadPath (.mk ch none [] lv [c])

/-! ## Concrete instances used by counterexamples and witnesses

The two routes of the C2 counterexample are
`Host("h") && Method("G<x>") && Path("/a")` (payload 1) and
`Host("h") && Method("G<x>")` (payload 2).  The chained tries below are the
ones the `newTrieMatcher`/`chain` pipeline produces for them (proved in the
counterexample theorem), written out as literals so that the kernel can
evaluate each pipeline stage once. -/

/-- the chained trie of `Host("h") && Method("G<x>")` with payload `k` -/
def litHM (k : Nat) : trieNode Nat :=
  .mk byte0 none [] 0 [.mk 'h' none [] 0 [.mk byte0 none [] 1 [.mk 'G' none [] 1
    [.mk byte0 (some (.stringM ['x'])) [k] 1 []]]]]

/-- the chained trie of `Host("h") && Method("G<x>") && Path("/a")`,
payload 1 -/
def litF : trieNode Nat :=
  .mk byte0 none [] 0 [.mk 'h' none [] 0 [.mk byte0 none [] 1 [.mk 'G' none [] 1
    [.mk byte0 (some (.stringM ['x'])) [] 1 [.mk byte0 none [] 2 [.mk '/' none [] 2
      [.mk 'a' none [1] 2 []]]]]]]]

/-- the merge of `litF` and `litHM 2` -/
def litM : trieNode Nat :=
  .mk byte0 none [] 0 [.mk 'h' none [] 0 [.mk byte0 none [] 1 [.mk 'G' none [] 1
    [.mk byte0 (some (.stringM ['x'])) [2] 1 [.mk byte0 none [] 2 [.mk '/' none [] 2
      [.mk 'a' none [1] 2 []]]]]]]]

def mpHMP : Mapper := .seq [.hostB, .methodB, .pathB]
def mpHM : Mapper := .seq [.hostB, .methodB]

/-- the expression strings of the two C2 counterexample routes -/
def exprF : Str := ("Host(\"h\") && Method(\"G<x>\") && Path(\"/a\")").data
def exprS : Str := ("Host(\"h\") && Method(\"G<x>\")").data

/-- the request of the C2 counterexample: method `G`, host `h`, path `/a` -/
def rqCE : Request := ⟨['G'], ['h'], ("/a").data, []⟩

/-- the matcher operations of real tries, as `router.compile`/`router.Route`
use them through the `matcher` interface -/
def trieOps : MatcherOps (Trie α) Request α :=
  ⟨Trie.matchReq, Trie.canMergeT, Trie.mergeT⟩

/-- the parse function of the C2 counterexample scenario: the two expression
strings parse to the chained tries above (`parse.go` is not under `src/`;
any parse function with these two values exhibits the behaviour) -/
def parseCE : Str → Nat → Option (Trie Nat)
  | e, _ =>
    if e = exprF then some ⟨litF, mpHMP⟩
    else if e = exprS then some ⟨litHM 2, mpHM⟩
    else none

/-- a trivial matcher-operations record over `Unit`, used to exercise the
router algorithms where merging never applies -/
def unitOps : MatcherOps Unit Unit Nat :=
  ⟨fun _ _ => none, fun _ _ => false, fun _ _ => none⟩

/-- a parser that accepts every expression, for the same purpose -/
def unitParse : Str → Nat → Option Unit := fun _ _ => some ()

/-- a parser that rejects exactly the expression string `bad` -/
def failParse : Str → Nat → Option Unit :=
  fun e _ => if e = ("bad").data then none else some ()

/-- the trie that `newTrieMatcher` builds for `Path("/a/<path:p>/b")` with
payload 7 (checked by `rfl` in the C10 witness): the `<path:p>` node is
followed by the literal nodes `/` and `b`, and only `b` carries the match -/
def deadT : trieNode Nat :=
  .mk byte0 none [] 0 [.mk '/' none [] 0 [.mk 'a' none [] 0 [.mk '/' none [] 0
    [.mk byte0 (some (.pathM ['p'])) [] 0 [.mk '/' none [] 0 [.mk 'b' none [7] 0 []]]]]]]

/-- the parse function of the C2 witness scenario: two expressions mapping
to the same one-literal chain with payloads 1 and 2 -/
def parseW : Str → Nat → Option (Trie Nat)
  | e, _ =>
    if e = ("b").data then some ⟨chainOf (-1) .rootI [.litI 'a'] [1], .base .pathB⟩
    else if e = ("a").data then some ⟨chainOf (-1) .rootI [.litI 'a'] [2], .base .pathB⟩
    else none

/-! # Theorems

## Iterator lemmas -/

theorem isEnd_of_not_false0 (c : charIter) (h : ¬ c.isEnd = false) : c.isEnd = true := by
  revert h
  cases c.isEnd <;> simp

theorem isEnd_eq_true_iff (c : charIter) :
    c.isEnd = true ↔
      c.seq.length = 0 ∨ (c.seq.length - 1 ≤ c.si ∧ c.curStr.length ≤ c.i) ∨
        c.curStr.length = 0 := by
  rw [charIter.isEnd]
  simp [Bool.or_eq_true, Bool.and_eq_true]
  tauto

theorem isEnd_eq_false_iff (c : charIter) :
    c.isEnd = false ↔
      c.seq.length ≠ 0 ∧ (c.seq.length - 1 ≤ c.si → c.i < c.curStr.length) ∧
        c.curStr.length ≠ 0 := by
  constructor
  · intro h
    obtain ⟨h1, h2, h3⟩ := isEnd_false_facts c h
    exact ⟨h1, h3, h2⟩
  · rintro ⟨h1, h2, h3⟩
    by_contra hcon
    have := (isEnd_eq_true_iff c).1 (isEnd_of_not_false0 c hcon)
    rcases this with h | ⟨ha, hb⟩ | h
    · exact h1 h
    · have := h2 ha
      omega
    · exact h3 h

theorem next_end_eq (c : charIter) (he : c.isEnd = true) :
    c.next = ((byte0, byte0, false), c) := by
  rw [charIter.next]
  simp [he]

theorem next_ok_iff (c : charIter) : (c.next).1.2.2 = true ↔ c.isEnd = false := by
  rw [charIter.next]
  cases hE : c.isEnd with
  | true => simp [hE]
  | false =>
    simp only [hE, Bool.false_eq_true, if_false]
    by_cases hcross : c.curStr.length ≤ c.i + 1 ∧ c.si < c.seq.length - 1
    · rw [if_pos hcross]
      simp
    · rw [if_neg hcross]
      simp

/-- `pushBack` undoes a successful `next`, also across string boundaries -/
theorem pushBack_next (c : charIter) (he : c.isEnd = false) (hv : c.i < c.curStr.length) :
    ((c.next).2).pushBack = c := by
  obtain ⟨i, si, seq, sep⟩ := c
  simp only [charIter.curStr] at hv
  rw [charIter.next]
  simp only [he, Bool.false_eq_true, if_false]
  by_cases hcross :
      (charIter.mk i si seq sep).curStr.length ≤ i + 1 ∧ si < seq.length - 1
  · rw [if_pos hcross]
    simp only [charIter.curStr] at hcross
    rw [charIter.pushBack]
    rw [if_neg (by simp), if_pos (by simp)]
    simp only [charIter.mk.injEq, and_true]
    constructor
    · show (seq.getD (si + 1 - 1) []).length - 1 = i
      have : si + 1 - 1 = si := by omega
      rw [this]
      omega
    · omega
  · rw [if_neg hcross]
    rw [charIter.pushBack]
    rw [if_neg (by simp), if_neg (by simp)]
    simp [charIter.mk.injEq]

theorem validPos_next (c : charIter) (h : ValidPos c) : ValidPos (c.next).2 := by
  by_cases he : c.isEnd = true
  · rw [next_end_eq c he]
    exact h
  · have he2 : c.isEnd = false := by revert he; cases c.isEnd <;> simp
    have hv : c.i < c.curStr.length := by
      rcases h with h | h
      · rw [he2] at h; cases h
      · exact h
    obtain ⟨i, si, seq, sep⟩ := c
    simp only [charIter.curStr] at hv
    rw [charIter.next]
    simp only [he2, Bool.false_eq_true, if_false]
    by_cases hcross :
        (charIter.mk i si seq sep).curStr.length ≤ i + 1 ∧ si < seq.length - 1
    · rw [if_pos hcross]
      simp only [charIter.curStr] at hcross
      by_cases h0 : (seq.getD (si + 1) []).length = 0
      · left
        rw [isEnd_eq_true_iff]
        simp only [charIter.curStr]
        omega
      · right
        simp only [charIter.curStr]
        omega
    · rw [if_neg hcross]
      simp only [charIter.curStr] at hcross
      by_cases hlt : i + 1 < (seq.getD si []).length
      · right
        simp only [charIter.curStr]
        omega
      · left
        rw [isEnd_eq_true_iff]
        simp only [charIter.curStr]
        omega

/-! ## Claim C7: `intMatcher.match` restores the iterator on failure -/

theorem intMatchF_false_restore :
    ∀ (fuel : Nat) (it : charIter) (count : Nat),
      it.fuelOf < fuel → ValidPos it → (intMatchF fuel it count).1 = false →
      (intMatchF fuel it count).2 = pushBackN it count := by
  intro fuel
  induction fuel with
  | zero => intro it count hlt; omega
  | succ f ih =>
    intro it count hlt hv hres
    rw [intMatchF] at hres ⊢
    by_cases hd : isGoDigit (it.next).1.1 = false
    · rw [if_pos hd] at hres ⊢
      by_cases hsep : (it.next).1.1 = (it.next).1.2.1
      · rw [if_pos hsep] at hres
        exact absurd hres (by simp)
      · rw [if_neg hsep] at hres ⊢
        have he : it.isEnd = false := by
          by_contra hcon
          have := next_end_eq it (isEnd_of_not_false0 it hcon)
          rw [this] at hsep
          exact hsep rfl
        have hvi : it.i < it.curStr.length := by
          rcases hv with h | h
          · rw [he] at h; cases h
          · exact h
        show pushBackN (it.next).2 (count + 1) = pushBackN it count
        have hstep : pushBackN (it.next).2 (count + 1)
            = pushBackN ((it.next).2.pushBack) count := rfl
        rw [hstep, pushBack_next it he hvi]
    · rw [if_neg hd] at hres ⊢
      by_cases hok : (it.next).1.2.2 = false
      · rw [if_pos hok] at hres
        exact absurd hres (by simp)
      · rw [if_neg hok] at hres ⊢
        have hoktrue : (it.next).1.2.2 = true := by
          revert hok; cases (it.next).1.2.2 <;> simp
        have he : it.isEnd = false := (next_ok_iff it).1 hoktrue
        have hvi : it.i < it.curStr.length := by
          rcases hv with h | h
          · rw [he] at h; cases h
          · exact h
        have hlt2 : (it.next).2.fuelOf < f := by
          have := next_fuelOf_lt it hoktrue
          omega
        have hrec := ih (it.next).2 (count + 1) hlt2 (validPos_next it hv) hres
        rw [hrec]
        have hstep : pushBackN (it.next).2 (count + 1)
            = pushBackN ((it.next).2.pushBack) count := rfl
        rw [hstep, pushBack_next it he hvi]

/-- C7: whenever `intMatcher.match` returns false, the iterator's position on
exit equals its position on entry — one push-back is performed for every
consumed character, including the final non-digit and across string
boundaries. -/
theorem claim_C7_intMatcher_restore (it : charIter) (hv : ValidPos it)
    (hf : (intMatcherMatch it).1 = false) : (intMatcherMatch it).2 = it := by
  have := intMatchF_false_restore (it.fuelOf + 1) it 0 (by omega) hv hf
  exact this

/-- witness for C7: on input `ab` under separator `/`, `intMatcher.match`
fails and the iterator is back at the start -/
theorem claim_C7_witness :
    ValidPos (newIter [("ab").data] ['/']) ∧
      (intMatcherMatch (newIter [("ab").data] ['/'])).1 = false ∧
      (intMatcherMatch (newIter [("ab").data] ['/'])).2 = newIter [("ab").data] ['/'] :=
  ⟨by decide, by decide,
    claim_C7_intMatcher_restore (newIter [("ab").data] ['/']) (by decide) (by decide)⟩

/-! ## Claim C1: `intMatcher.match` on a digit run extending to end-of-input -/

theorem intMatchF_digit_run :
    ∀ (fuel : Nat) (it : charIter) (count : Nat),
      it.seq ≠ [] → it.si = it.seq.length - 1 → it.i < it.curStr.length →
      (∀ j, it.i ≤ j → j < it.curStr.length → isGoDigit (it.curStr.getD j byte0) = true) →
      it.curStr.length - it.i < fuel →
      intMatchF fuel it count = (true, { it with i := it.curStr.length - 1 }) := by
  intro fuel
  induction fuel with
  | zero => intro it count h1 h2 h3 h4 h5; omega
  | succ f ih =>
    intro it count h1 h2 h3 h4 h5
    obtain ⟨i0, si0, seq0, sep0⟩ := it
    simp only [charIter.curStr] at h3 h4 h5 ⊢
    simp only [] at h2
    have hlen0 : seq0.length ≠ 0 := fun h0 => h1 (List.length_eq_zero.1 h0)
    have hE : (charIter.mk i0 si0 seq0 sep0).isEnd = false := by
      rw [isEnd_eq_false_iff]
      simp only [charIter.curStr]
      omega
    rw [intMatchF]
    rw [charIter.next]
    simp only [hE, Bool.false_eq_true, if_false]
    have hncross :
        ¬ ((charIter.mk i0 si0 seq0 sep0).curStr.length ≤ i0 + 1 ∧
            si0 < seq0.length - 1) := by
      simp only [charIter.curStr]
      omega
    rw [if_neg hncross]
    have hdig : isGoDigit ((charIter.mk i0 si0 seq0 sep0).curStr.getD i0 byte0) = true := by
      simp only [charIter.curStr]
      exact h4 i0 (Nat.le_refl _) h3
    simp only [charIter.curStr] at hdig
    simp only [charIter.curStr]
    rw [hdig]
    rw [if_neg (by simp)]
    by_cases hlast : i0 + 1 < (seq0.getD si0 []).length
    · have hrec := ih (charIter.mk (i0 + 1) si0 seq0 sep0) (count + 1) h1 h2 (by
        simpa only [charIter.curStr] using hlast) (by
        simp only [charIter.curStr]
        intro j hj1 hj2
        exact h4 j (by omega) hj2) (by
        simp only [charIter.curStr]
        omega)
      simp only [charIter.curStr] at hrec
      rw [hrec]
      simp
    · have hlen : (seq0.getD si0 []).length = i0 + 1 := by omega
      obtain ⟨f2, rfl⟩ : ∃ f2, f = f2 + 1 := ⟨f - 1, by omega⟩
      rw [intMatchF]
      have hE2 : (charIter.mk (i0 + 1) si0 seq0 sep0).isEnd = true := by
        rw [isEnd_eq_true_iff]
        simp only [charIter.curStr]
        omega
      rw [next_end_eq _ hE2]
      dsimp only
      rw [if_pos (by decide : isGoDigit byte0 = false), if_pos rfl]
      rw [charIter.pushBack]
      rw [if_neg (by simp), if_neg (by simp)]
      simp [charIter.mk.injEq, charIter.curStr, List.getD_eq_getElem?_getD]
      rw [List.getD_eq_getElem?_getD] at hlen
      omega

/-- C1 is false as stated: on the all-digit input `42`, `intMatcher.match`
returns true but the final push-back leaves the iterator *on* the last
digit (offset 1), not at end-of-input, and the terminal `<int:v>` node of
`/<int:v>` therefore does not match the request path `/42`. -/
theorem claim_C1_counterexample :
    (intMatcherMatch (newIter [("42").data] ['/'])).1 = true ∧
      (intMatcherMatch (newIter [("42").data] ['/'])).2.isEnd = false ∧
      (intMatcherMatch (newIter [("42").data] ['/'])).2.i = 1 ∧
      ((newTrieMatcher (("/<int:v>").data) (.base .pathB) (7 : Nat)).map
        (fun t => t.matchReq ⟨[], [], ("/42").data, []⟩)) = some none :=
  ⟨by decide, by decide, by decide, by decide⟩

/-- C1 (amended): on a char-iterator whose remaining input is a non-empty
run of ASCII digits extending to end-of-input, `intMatcher.match` returns
true but leaves the iterator positioned *on* the last digit — one push-back
short of end-of-input — so the iterator does not report `isEnd` and a
terminal `<int:name>` node does not accept such input. -/
theorem claim_C1_amended (it : charIter)
    (h1 : it.seq ≠ []) (h2 : it.si = it.seq.length - 1)
    (h3 : it.i < it.curStr.length)
    (h4 : ∀ j, it.i ≤ j → j < it.curStr.length → isGoDigit (it.curStr.getD j byte0) = true) :
    intMatcherMatch it = (true, { it with i := it.curStr.length - 1 }) ∧
      ({ it with i := it.curStr.length - 1 } : charIter).isEnd = false := by
  constructor
  · refine intMatchF_digit_run (it.fuelOf + 1) it 0 h1 h2 h3 h4 ?_
    rw [charIter.fuelOf]
    omega
  · simp only [charIter.isEnd, Bool.or_eq_false_iff, beq_eq_false_iff_ne,
      Bool.and_eq_false_iff, decide_eq_false_iff_not, not_le]
    have hcs : ({ it with i := it.curStr.length - 1 } : charIter).curStr = it.curStr := rfl
    refine ⟨⟨?_, ?_⟩, ?_⟩
    · intro h0
      exact h1 (List.length_eq_zero.1 h0)
    · right
      rw [hcs]
      show it.curStr.length - 1 < it.curStr.length
      omega
    · rw [hcs]
      omega

/-- witness for C1 (amended): the digit run `42` -/
theorem claim_C1_witness :
    intMatcherMatch (newIter [("42").data] ['/'])
        = (true, { newIter [("42").data] ['/'] with i := 1 }) ∧
      ({ newIter [("42").data] ['/'] with i := 1 } : charIter).isEnd = false :=
  claim_C1_amended (newIter [("42").data] ['/'])
    (by decide) (by decide) (by decide) (by decide)

end Route

namespace Route

/-! ## Claim C9: `Route` never returns an error -/

/-- C9: for every router state and request, `Route` returns no error and its
payload is the first compiled matcher's match, `nil` when none matches. -/
theorem claim_C9_route_no_error {M Req α : Type} (ops : MatcherOps M Req α)
    (s : RouterState M α) (req : Req) :
    (RouteReq ops s req).2 = none ∧
      (RouteReq ops s req).1 = s.matchers.findSome? (fun m => ops.matchFn m req) := by
  obtain ⟨ms, rs⟩ := s
  cases ms with
  | nil => exact ⟨rfl, rfl⟩
  | cons a rest => exact ⟨rfl, rfl⟩

/-! ## Claim C4: `AddRoute` error cases and success -/

theorem lookupRoute_append_right {α : Type} (rs : List (Str × α)) (e : Str) (v : α)
    (h : lookupRoute rs e = none) : lookupRoute (rs ++ [(e, v)]) e = some v := by
  induction rs with
  | nil => simp [lookupRoute]
  | cons p rest ih =>
    rw [lookupRoute] at h
    by_cases hp : p.1 = e
    · rw [if_pos hp] at h
      cases h
    · rw [if_neg hp] at h
      rw [List.cons_append, lookupRoute, if_neg hp]
      exact ih h

theorem eraseRoute_append_self {α : Type} (rs : List (Str × α)) (e : Str) (v : α)
    (h : lookupRoute rs e = none) : eraseRoute (rs ++ [(e, v)]) e = rs := by
  induction rs with
  | nil => simp [eraseRoute, lookupRoute]
  | cons p rest ih =>
    rw [lookupRoute] at h
    by_cases hp : p.1 = e
    · rw [if_pos hp] at h
      cases h
    · rw [if_neg hp] at h
      rw [List.cons_append, eraseRoute, if_neg hp, ih h]

/-- C4: `AddRoute` errors on a duplicate expression and on a malformed
expression; every error case leaves the router state (routes and compiled
matchers) unchanged; on success the expression is bound, so `GetRoute`
returns the value. -/
theorem claim_C4_addRoute {M Req α : Type} (ops : MatcherOps M Req α)
    (parse : Str → α → Option M) (s : RouterState M α) (e : Str) (v : α) :
    ((lookupRoute s.routes e).isSome = true → (AddRoute ops parse s e v).2 ≠ none) ∧
      (parse e v = none → (AddRoute ops parse s e v).2 ≠ none) ∧
      ((AddRoute ops parse s e v).2 ≠ none → (AddRoute ops parse s e v).1 = s) ∧
      ((AddRoute ops parse s e v).2 = none →
        GetRoute (AddRoute ops parse s e v).1 e = some v) := by
  by_cases hdup : (lookupRoute s.routes e).isSome = true
  · rw [AddRoute, if_pos hdup]
    exact ⟨fun _ => by simp, fun _ => by simp, fun _ => rfl, fun h => by cases h⟩
  · have hnone : lookupRoute s.routes e = none := by
      revert hdup
      cases lookupRoute s.routes e <;> simp
    cases hp : parse e v with
    | none =>
      rw [AddRoute, if_neg hdup, hp]
      exact ⟨fun h => absurd h hdup, fun _ => by simp, fun _ => rfl, fun h => by cases h⟩
    | some m =>
      rw [AddRoute, if_neg hdup, hp]
      dsimp only
      cases hc : compileR ops parse (s.routes ++ [(e, v)]) with
      | none =>
        dsimp only
        refine ⟨fun h => absurd h hdup, fun h => Option.noConfusion h, fun _ => ?_, 
          fun h => Option.noConfusion h⟩
        show RouterState.mk s.matchers (eraseRoute (s.routes ++ [(e, v)]) e) = s
        rw [eraseRoute_append_self s.routes e v hnone]
      | some ms =>
        dsimp only
        refine ⟨fun h => absurd h hdup, fun h => Option.noConfusion h,
          fun herr => absurd rfl herr, fun _ => ?_⟩
        show lookupRoute (s.routes ++ [(e, v)]) e = some v
        exact lookupRoute_append_right s.routes e v hnone

/-- witness for C4: adding a route to the empty router succeeds and binds
the value -/
theorem claim_C4_witness :
    (AddRoute unitOps unitParse ⟨[], []⟩ (("a").data) (5 : Nat)).2 = none ∧
      GetRoute (AddRoute unitOps unitParse ⟨[], []⟩ (("a").data) (5 : Nat)).1
        (("a").data) = some 5 :=
  ⟨by decide,
    (claim_C4_addRoute unitOps unitParse ⟨[], []⟩ (("a").data) 5).2.2.2 (by decide)⟩

/-! ## Claim C5: the compiled matcher list is the sorted merge fold -/

theorem specMergeStep_none {M Req α : Type} (ops : MatcherOps M Req α)
    (acc : List M) (m : M) (hg : acc.getLast? = none) :
    specMergeStep ops acc m = some (acc ++ [m]) := by
  simp only [specMergeStep, hg]

theorem specMergeStep_some {M Req α : Type} (ops : MatcherOps M Req α)
    (acc : List M) (m last : M) (hg : acc.getLast? = some last) :
    specMergeStep ops acc m =
      if ops.canMergeFn last m then (ops.mergeFn last m).map (fun mm => acc.dropLast ++ [mm])
      else some (acc ++ [m]) := by
  simp only [specMergeStep, hg]

theorem compileAcc_eq_foldlM {M Req α : Type} (ops : MatcherOps M Req α)
    (parse : Str → α → Option M) (routes : List (Str × α)) (es : List Str)
    (acc : List M) :
    compileAcc ops parse routes es acc =
      es.foldlM
        (fun acc e =>
          (lookupRoute routes e).bind
            (fun v => (parse e v).bind (specMergeStep ops acc))) acc := by
  induction es generalizing acc with
  | nil => rfl
  | cons e rest ih =>
    rw [compileAcc, List.foldlM_cons]
    show _ = ((lookupRoute routes e).bind fun v => (parse e v).bind (specMergeStep ops acc)) >>= _
    split
    · rename_i hl
      rw [hl]
      rfl
    · rename_i v hl
      rw [hl, Option.some_bind]
      split
      · rename_i hp
        rw [hp]
        rfl
      · rename_i m hp
        rw [hp, Option.some_bind]
        split
        · rename_i last hg
          rw [specMergeStep_some ops acc m last hg]
          split
          · cases hmm : ops.mergeFn last m with
            | none => rfl
            | some merged => exact ih (acc.dropLast ++ [merged])
          · exact ih (acc ++ [m])
        · rename_i hg
          rw [specMergeStep_none ops acc m hg]
          exact ih (acc ++ [m])

theorem compileR_eq_specCompile {M Req α : Type} (ops : MatcherOps M Req α)
    (parse : Str → α → Option M) (routes : List (Str × α)) :
    compileR ops parse routes = specCompile ops parse routes :=
  compileAcc_eq_foldlM ops parse routes (sortDesc (routes.map Prod.fst)) []

/-- C5: after every successful mutation (`AddRoute`, `UpsertRoute`,
`RemoveRoute`, `InitRoutes`), the compiled matcher list is exactly the fold
that sorts the route expressions in reverse lexicographic order, parses each
in that order, and merges a new matcher into the last accumulator element iff
the last element's `canMerge` reports true, appending it otherwise. -/
theorem claim_C5_compile_shape {M Req α : Type} (ops : MatcherOps M Req α)
    (parse : Str → α → Option M) (s : RouterState M α) (e : Str) (v : α)
    (input : List (Str × α)) :
    ((AddRoute ops parse s e v).2 = none →
        specCompile ops parse (AddRoute ops parse s e v).1.routes =
          some (AddRoute ops parse s e v).1.matchers) ∧
      ((UpsertRoute ops parse s e v).2 = none →
        specCompile ops parse (UpsertRoute ops parse s e v).1.routes =
          some (UpsertRoute ops parse s e v).1.matchers) ∧
      ((RemoveRoute ops parse s e).2 = none →
        specCompile ops parse (RemoveRoute ops parse s e).1.routes =
          some (RemoveRoute ops parse s e).1.matchers) ∧
      ((InitRoutes ops parse s input).2 = none →
        specCompile ops parse (InitRoutes ops parse s input).1.routes =
          some (InitRoutes ops parse s input).1.matchers) := by
  refine ⟨?_, ?_, ?_, ?_⟩
  · rw [AddRoute]
    by_cases hdup : (lookupRoute s.routes e).isSome = true
    · rw [if_pos hdup]
      exact fun h => Option.noConfusion h
    · rw [if_neg hdup]
      cases hp : parse e v with
      | none => exact fun h => Option.noConfusion h
      | some m =>
        dsimp only
        cases hc : compileR ops parse (s.routes ++ [(e, v)]) with
        | none => exact fun h => Option.noConfusion h
        | some ms =>
          intro _
          show specCompile ops parse (s.routes ++ [(e, v)]) = some ms
          rw [← compileR_eq_specCompile]
          exact hc
  · rw [UpsertRoute]
    cases hp : parse e v with
    | none => exact fun h => Option.noConfusion h
    | some m =>
      dsimp only
      cases hc : compileR ops parse (setRoute s.routes e v) with
      | none =>
        cases lookupRoute s.routes e with
        | none => exact fun h => Option.noConfusion h
        | some pv => exact fun h => Option.noConfusion h
      | some ms =>
        intro _
        show specCompile ops parse (setRoute s.routes e v) = some ms
        rw [← compileR_eq_specCompile]
        exact hc
  · rw [RemoveRoute]
    cases hc : compileR ops parse (eraseRoute s.routes e) with
    | none => exact fun h => Option.noConfusion h
    | some ms =>
      intro _
      show specCompile ops parse (eraseRoute s.routes e) = some ms
      rw [← compileR_eq_specCompile]
      exact hc
  · rw [InitRoutes]
    split
    · exact fun h => Option.noConfusion h
    · split
      · rename_i ms hms
        intro _
        rw [← compileR_eq_specCompile]
        exact hms
      · exact fun h => Option.noConfusion h

/-- witness for C5: a successful `AddRoute` on the empty router, with the
compiled list checked against the specified fold -/
theorem claim_C5_witness :
    (AddRoute unitOps unitParse ⟨[], []⟩ (("a").data) (5 : Nat)).2 = none ∧
      specCompile unitOps unitParse
          (AddRoute unitOps unitParse ⟨[], []⟩ (("a").data) (5 : Nat)).1.routes =
        some (AddRoute unitOps unitParse ⟨[], []⟩ (("a").data) (5 : Nat)).1.matchers :=
  ⟨by decide,
    (claim_C5_compile_shape unitOps unitParse ⟨[], []⟩ (("a").data) 5 []).1 (by decide)⟩

/-! ## Claim C3: `InitRoutes` is not atomic -/

theorem routeReq_congr {M Req α : Type} (ops : MatcherOps M Req α)
    (s t : RouterState M α) (h : s.matchers = t.matchers) :
    ∀ req : Req, RouteReq ops s req = RouteReq ops t req := by
  intro req
  rw [RouteReq, RouteReq, h]

/-- C3: counterexample — `InitRoutes` replaces the route table before parsing
the entries, so a parse error leaves the partially built new table in place:
starting from a router that binds `k`, a failing `InitRoutes` returns an
error yet `GetRoute k` flips from `some 5` to `none`.  The call is
observably NOT as if it had never been attempted. -/
theorem claim_C3_counterexample :
    (InitRoutes unitOps failParse ⟨[()], [(("k").data, 5)]⟩
        [(("bad").data, 7)]).2 ≠ none ∧
      GetRoute (⟨[()], [(("k").data, 5)]⟩ : RouterState Unit Nat) (("k").data) = some 5 ∧
      GetRoute (InitRoutes unitOps failParse ⟨[()], [(("k").data, 5)]⟩
        [(("bad").data, 7)]).1 (("k").data) = none := by
  decide

/-- C3: [amended] when `InitRoutes` returns an error the compiled matcher
list is left unchanged, so `Route` behaves on every request as if the call
had not been attempted; the route table, however, may be partially
replaced (only the matchers are protected, as the counterexample shows). -/
theorem claim_C3_amended {M Req α : Type} (ops : MatcherOps M Req α)
    (parse : Str → α → Option M) (s : RouterState M α) (input : List (Str × α)) :
    (InitRoutes ops parse s input).2 ≠ none →
      (InitRoutes ops parse s input).1.matchers = s.matchers ∧
        ∀ req : Req, RouteReq ops (InitRoutes ops parse s input).1 req = RouteReq ops s req := by
  rw [InitRoutes]
  split
  · intro _
    exact ⟨rfl, routeReq_congr ops _ s rfl⟩
  · split
    · intro h
      exact absurd rfl h
    · intro _
      exact ⟨rfl, routeReq_congr ops _ s rfl⟩

/-- witness for C3's amended theorem: a failing `InitRoutes` on a router with
one compiled matcher keeps the matcher list and the routing behaviour -/
theorem claim_C3_witness :
    (InitRoutes unitOps failParse ⟨[()], []⟩ [(("bad").data, 7)]).2 ≠ none ∧
      (InitRoutes unitOps failParse ⟨[()], []⟩ [(("bad").data, 7)]).1.matchers = [()] ∧
      RouteReq unitOps (InitRoutes unitOps failParse ⟨[()], []⟩ [(("bad").data, 7)]).1 () =
        RouteReq unitOps ⟨[()], []⟩ () :=
  ⟨by decide,
    (claim_C3_amended unitOps failParse ⟨[()], []⟩ [(("bad").data, 7)] (by decide)).1,
    (claim_C3_amended unitOps failParse ⟨[()], []⟩ [(("bad").data, 7)] (by decide)).2 ()⟩

/-! ## Claim C8: host matching is case-invariant -/

/-- C8: host matching is case-invariant: `Host` and `HostRegexp` matchers
built from patterns that agree up to letter case are equal (the pattern is
lowercased at construction), and a host-mapped trie or regexp matcher
returns the same result on two requests whose hosts agree up to letter case
(the request host is lowercased, and the `:port` suffix stripped, by
`hostMapper.mapRequest`). -/
theorem claim_C8_host_case_invariance {α : Type} (p q : Str) (m : α)
    (hpq : lowerStr p = lowerStr q) (r r2 : Request)
    (hr : lowerStr r.host = lowerStr r2.host) (eng : Str → Str → Bool) :
    hostTrieMatcher p m = hostTrieMatcher q m ∧
      hostRegexpMatcher p m = hostRegexpMatcher q m ∧
      BaseMapper.hostB.mapRequest r = (lowerStr r.host).takeWhile (fun c => c ≠ ':') ∧
      (∀ t : Trie α, t.mapper = .base .hostB → t.matchReq r = t.matchReq r2) ∧
      (∀ rm : RegexpMatcher α, rm.mapper = .base .hostB →
        regexpMatchReq eng rm r = regexpMatchReq eng rm r2) := by
  refine ⟨?_, ?_, rfl, ?_, ?_⟩
  · rw [hostTrieMatcher, hostTrieMatcher, hpq]
  · rw [hostRegexpMatcher, hostRegexpMatcher, hpq]
  · intro t ht
    rw [Trie.matchReq, Trie.matchReq, ht]
    have hiter : (Mapper.base .hostB).newIterM r = (Mapper.base .hostB).newIterM r2 := by
      simp only [Mapper.newIterM, BaseMapper.mapRequest, hr]
    rw [hiter]
  · intro rm hrm
    rw [regexpMatchReq, regexpMatchReq, hrm]
    simp only [Mapper.mapRequestM, BaseMapper.mapRequest, hr]

/-- witness for C8: mixed-case pattern `AbC` and lowercase `abc` produce the
same host matchers, and a mixed-case request host matches like its
lowercase form -/
theorem claim_C8_witness :
    lowerStr (("AbC").data) = lowerStr (("abc").data) ∧
      hostTrieMatcher (("AbC").data) (7 : Nat) = hostTrieMatcher (("abc").data) 7 ∧
      (∀ t : Trie Nat, t.mapper = .base .hostB →
        t.matchReq ⟨[], ("AbC:80").data, [], []⟩ = t.matchReq ⟨[], ("abc:80").data, [], []⟩) :=
  ⟨by decide,
    (claim_C8_host_case_invariance (("AbC").data) (("abc").data) 7 (by decide)
      ⟨[], ("AbC:80").data, [], []⟩ ⟨[], ("abc:80").data, [], []⟩ (by decide)
      (fun _ _ => true)).1,
    (claim_C8_host_case_invariance (("AbC").data) (("abc").data) 7 (by decide)
      ⟨[], ("AbC:80").data, [], []⟩ ⟨[], ("abc:80").data, [], []⟩ (by decide)
      (fun _ _ => true)).2.2.2.1⟩

/-! ## Claim C10: `<path:...>` consumes everything; later literals are dead -/

theorem grabPathF_isEnd :
    ∀ (fuel : Nat) (it : charIter), it.fuelOf < fuel → ValidPos it →
      (grabPathF fuel it).isEnd = true := by
  intro fuel
  induction fuel with
  | zero =>
    intro it hlt _
    omega
  | succ f ih =>
    intro it hlt hv
    rw [grabPathF]
    cases hok : (it.next).1.2.2 with
    | true =>
      rw [if_pos rfl]
      have hfuel := next_fuelOf_lt it hok
      exact ih (it.next).2 (by omega) (validPos_next it hv)
    | false =>
      rw [if_neg (by simp)]
      have hend : it.isEnd = true := by
        cases hb : it.isEnd with
        | true => rfl
        | false =>
          have hcon := (next_ok_iff it).2 hb
          rw [hok] at hcon
          cases hcon
      rw [next_end_eq it hend]
      exact hend

theorem matchNode_literal {α : Type} (ch : Char) (ms : List α) (lv : Int)
    (cs : List (trieNode α)) (hch : ch ≠ byte0) (it : charIter) :
    (trieNode.mk ch none ms lv cs).matchNode it =
      (if (it.level : Int) ≠ lv then (false, it)
       else
        let r := it.next
        if r.1.2.2 = false then (false, r.2)
        else if r.1.1 ≠ ch then (false, r.2.pushBack)
        else (true, r.2)) := by
  rw [trieNode.matchNode]
  by_cases hlv : (it.level : Int) ≠ (trieNode.mk ch none ms lv cs).level
  · rw [if_pos hlv, if_pos (show (it.level : Int) ≠ lv from hlv)]
  · rw [if_neg hlv, if_neg (show ¬ (it.level : Int) ≠ lv from hlv)]
    rw [if_neg (show ¬ (trieNode.mk ch none ms lv cs).isRoot = true by
      simp [trieNode.isRoot, trieNode.char, trieNode.patternMatcher, hch])]
    rfl

theorem matchTrieF_literal_end {α : Type} (fuel : Nat) (ch : Char) (ms : List α)
    (lv : Int) (cs : List (trieNode α)) (hch : ch ≠ byte0) (it : charIter)
    (hend : it.isEnd = true) :
    matchTrieF fuel (trieNode.mk ch none ms lv cs) it = none := by
  cases fuel with
  | zero => rfl
  | succ f =>
    rw [matchTrieF]
    rw [matchNode_literal ch ms lv cs hch it]
    by_cases hlv : (it.level : Int) ≠ lv
    · rw [if_pos hlv]
      rw [if_pos rfl]
    · rw [if_neg hlv]
      dsimp only
      have hok : (it.next).1.2.2 = false := by
        cases hb : (it.next).1.2.2 with
        | false => rfl
        | true =>
          have := (next_ok_iff it).1 hb
          rw [hend] at this
          cases this
      rw [hok, if_pos rfl, if_pos rfl]

theorem validPos_matchNode_lit {α : Type} (ch : Char) (ms : List α) (lv : Int)
    (cs : List (trieNode α)) (it : charIter) (hv : ValidPos it) :
    ValidPos ((trieNode.mk ch none ms lv cs).matchNode it).2 := by
  rw [trieNode.matchNode]
  by_cases hlv : (it.level : Int) ≠ (trieNode.mk ch none ms lv cs).level
  · rw [if_pos hlv]
    exact hv
  · rw [if_neg hlv]
    by_cases hroot : (trieNode.mk ch none ms lv cs).isRoot = true
    · rw [if_pos hroot]
      exact hv
    · rw [if_neg hroot]
      show ValidPos (let r := it.next;
        if r.1.2.2 = false then (false, r.2)
        else if r.1.1 ≠ ch then (false, r.2.pushBack)
        else (true, r.2)).2
      dsimp only
      by_cases h1 : (it.next).1.2.2 = false
      · rw [if_pos h1]
        exact validPos_next it hv
      · rw [if_neg h1]
        by_cases h2 : (it.next).1.1 ≠ ch
        · rw [if_pos h2]
          have he : it.isEnd = false := by
            cases hb : it.isEnd with
            | false => rfl
            | true =>
              have := next_end_eq it hb
              rw [this] at h1
              simp at h1
          have hvi : it.i < it.curStr.length := by
            rcases hv with h | h
            · rw [he] at h
              cases h
            · exact h
          rw [pushBack_next it he hvi]
          exact hv
        · rw [if_neg h2]
          exact validPos_next it hv

theorem deadPath_match_none {α : Type} (t : trieNode α) (hd : DeadPath t) :
    ∀ (fuel : Nat) (it : charIter), ValidPos it → matchTrieF fuel t it = none := by
  induction hd with
  | stop ch name lv c hpm hch =>
    intro fuel it hv
    cases fuel with
    | zero => rfl
    | succ f =>
      rw [matchTrieF]
      by_cases hlv : (it.level : Int) ≠ (trieNode.mk ch (some (.pathM name)) [] lv [c]).level
      · rw [if_pos (show ((trieNode.mk ch (some (.pathM name)) [] lv [c]).matchNode it).1 = false by
          rw [trieNode.matchNode, if_pos hlv])]
      · have hmn : (trieNode.mk ch (some (.pathM name)) [] lv [c]).matchNode it =
            (true, grabPathF (it.fuelOf + 1) it) := by
          rw [trieNode.matchNode, if_neg hlv]
          rw [if_neg (show ¬ (trieNode.mk ch (some (.pathM name)) [] lv [c]).isRoot = true by
            simp [trieNode.isRoot, trieNode.char, trieNode.patternMatcher])]
          rfl
        rw [hmn]
        rw [if_neg (by simp)]
        rw [if_neg (by simp [trieNode.matchs])]
        have hend : (grabPathF (it.fuelOf + 1) it).isEnd = true :=
          grabPathF_isEnd (it.fuelOf + 1) it (by omega) hv
        obtain ⟨cch, cpm, cms, clv, ccs⟩ := c
        have hpm2 : cpm = none := hpm
        have hch2 : cch ≠ byte0 := hch
        subst hpm2
        have hchild : matchTrieF f (trieNode.mk cch none cms clv ccs)
            (grabPathF (it.fuelOf + 1) it) = none :=
          matchTrieF_literal_end f cch cms clv ccs hch2 _ hend
        rw [show (trieNode.mk ch (some (.pathM name)) [] lv
            [trieNode.mk cch none cms clv ccs]).children =
          [trieNode.mk cch none cms clv ccs] from rfl]
        rw [List.findSome?_cons]
        rw [hchild]
        rw [List.findSome?_nil]
        rw [if_neg (by simp [trieNode.matchs])]
  | step ch lv c hdc ih =>
    intro fuel it hv
    cases fuel with
    | zero => rfl
    | succ f =>
      rw [matchTrieF]
      cases hok : ((trieNode.mk ch none [] lv [c]).matchNode it).1 with
      | false => rw [if_pos rfl]
      | true =>
        rw [if_neg (by simp)]
        rw [if_neg (by simp [trieNode.matchs])]
        have hv2 : ValidPos ((trieNode.mk ch none [] lv [c]).matchNode it).2 :=
          validPos_matchNode_lit ch [] lv [c] it hv
        rw [show (trieNode.mk ch none [] lv [c]).children = [c] from rfl]
        rw [List.findSome?_cons]
        rw [ih f ((trieNode.mk ch none [] lv [c]).matchNode it).2 hv2]
        rw [List.findSome?_nil]
        rw [if_neg (by simp [trieNode.matchs])]

/-- C10: counterexample — the universal "match returns nil for every
request" part fails when the `<path:...>` pattern is followed by another
*pattern* node: the expression `/<path:p><q>` constructs successfully and
DOES match the path `/x` (the string matcher `<q>` matches the empty value
at end-of-input), returning its payload. -/
theorem claim_C10_counterexample :
    (newTrieMatcher (("/<path:p><q>").data) (.base .pathB) (7 : Nat)).isSome = true ∧
      (newTrieMatcher (("/<path:p><q>").data) (.base .pathB) (7 : Nat)).bind
        (fun t => t.matchReq ⟨[], [], ("/x").data, []⟩) = some 7 := by
  decide

/-- C10: [amended] a `<path:name>` pattern matcher always succeeds and
consumes the iterator to the end of all remaining input; consequently every
trie node whose `<path:...>` pattern node is followed by *literal character*
nodes (as in `Path("/a/<path:p>/b")`) matches `nil` for every request — the
literal nodes after the path-pattern node are unreachable.  (A *pattern*
node after the path node can still match, because string matchers accept
the empty value at end-of-input; see the counterexample.) -/
theorem claim_C10_amended {α : Type} (name : Str) (it it2 : charIter)
    (hv : ValidPos it) (hv2 : ValidPos it2) (t : trieNode α) (hd : DeadPath t)
    (fuel : Nat) :
    (pmMatch (.pathM name) it).1 = true ∧
      (pmMatch (.pathM name) it).2.isEnd = true ∧
      matchTrieF fuel t it2 = none :=
  ⟨rfl, grabPathF_isEnd (it.fuelOf + 1) it (by omega) hv,
    deadPath_match_none t hd fuel it2 hv2⟩

/-- witness for C10's amended theorem: `Path("/a/<path:p>/b")` builds the
chain `deadT`, whose path node is followed by the literals `/` and `b`; the
path matcher consumes `/x` entirely and the whole trie matches nothing -/
theorem claim_C10_witness :
    newTrieMatcher (("/a/<path:p>/b").data) (.base .pathB) (7 : Nat) =
        some ⟨deadT, .base .pathB⟩ ∧
      ValidPos (newIter [("/x").data] ['/']) ∧
      (pmMatch (.pathM (("p").data)) (newIter [("/x").data] ['/'])).1 = true ∧
      (pmMatch (.pathM (("p").data)) (newIter [("/x").data] ['/'])).2.isEnd = true ∧
      Trie.matchReq ⟨deadT, .base .pathB⟩ ⟨[], [], ("/x").data, []⟩ = none := by
  refine ⟨by rfl, by decide, ?_, ?_, ?_⟩
  · exact (claim_C10_amended (("p").data) (newIter [("/x").data] ['/'])
      (newIter [("/x").data] ['/']) (by decide) (by decide) deadT
      (DeadPath.step byte0 0 _ (DeadPath.step '/' 0 _ (DeadPath.step 'a' 0 _
        (DeadPath.step '/' 0 _ (DeadPath.stop byte0 (("p").data) 0 _ rfl (by decide))))))
      (nodeDepth deadT)).1
  · exact (claim_C10_amended (("p").data) (newIter [("/x").data] ['/'])
      (newIter [("/x").data] ['/']) (by decide) (by decide) deadT
      (DeadPath.step byte0 0 _ (DeadPath.step '/' 0 _ (DeadPath.step 'a' 0 _
        (DeadPath.step '/' 0 _ (DeadPath.stop byte0 (("p").data) 0 _ rfl (by decide))))))
      (nodeDepth deadT)).2.1
  · exact (claim_C10_amended (("p").data) (newIter [("/x").data] ['/'])
      (newIter [("/x").data] ['/']) (by decide) (by decide) deadT
      (DeadPath.step byte0 0 _ (DeadPath.step '/' 0 _ (DeadPath.step 'a' 0 _
        (DeadPath.step '/' 0 _ (DeadPath.stop byte0 (("p").data) 0 _ rfl (by decide))))))
      (nodeDepth deadT)).2.2

/-! ## Claim C6: merging collapsing tries appends matches, left wins -/

theorem pmEquals_refl (pm : PatternMatcher) : pmEquals pm pm = true := by
  cases pm <;> simp [pmEquals]

theorem equivalent_self (mp : Mapper) : mp.equivalent mp = some mp := by
  cases mp with
  | base b => simp [Mapper.equivalent]
  | seq ms => simp [Mapper.equivalent]

theorem nodeDepth_chainOf {α : Type} :
    ∀ (rest : List ChainItem) (lvl : Int) (h : ChainItem) (ms : List α),
      nodeDepth (chainOf lvl h rest ms) = rest.length + 1 := by
  intro rest
  induction rest with
  | nil =>
    intro lvl h ms
    rfl
  | cons h2 rest2 ih =>
    intro lvl h ms
    rw [chainOf, nodeDepth, listDepth, listDepth, ih]
    simp [Nat.max_zero]
    omega

theorem equalsGo_chainOf {α : Type} (lvl : Int) (h : ChainItem)
    (restA restB : List ChainItem) (msA msB : List α) :
    trieNode.equalsGo (chainOf lvl h restA msA) (chainOf lvl h restB msB) = true := by
  cases h <;> cases restA <;> cases restB <;>
    simp [chainOf, trieNode.equalsGo, trieNode.level, trieNode.char,
      trieNode.patternMatcher, itemChar, itemPm, itemLevel, pmEquals_refl]

theorem mergeNodeF_chainOf {α : Type} :
    ∀ (rest : List ChainItem) (fuel : Nat) (lvl : Int) (h : ChainItem)
      (msA msB : List α), rest.length < fuel →
      mergeNodeF fuel (chainOf lvl h rest msA) (chainOf lvl h rest msB) =
        chainOf lvl h rest (msA ++ msB) := by
  intro rest
  induction rest with
  | nil =>
    intro fuel lvl h msA msB hf
    cases fuel with
    | zero => omega
    | succ f => rfl
  | cons h2 rest2 ih =>
    intro fuel lvl h msA msB hf
    cases fuel with
    | zero => omega
    | succ f =>
      rw [chainOf, chainOf, chainOf, mergeNodeF]
      have heq := equalsGo_chainOf (itemLevel lvl h) h2 rest2 rest2 msA msB
      have hmerge := ih f (itemLevel lvl h) h2 msA msB (by simp at hf; omega)
      simp only [trieNode.children, trieNode.char, trieNode.patternMatcher,
        trieNode.matchs, trieNode.level, List.flatMap_cons, List.flatMap_nil,
        List.filter_cons, List.filter_nil, heq, if_true, List.map_cons, List.map_nil,
        List.any_cons, List.any_nil, Bool.or_false, Bool.not_true, List.append_nil,
        hmerge]
      rfl

theorem matchNode_ext {α : Type} (ch : Char) (pm : Option PatternMatcher)
    (lv : Int) (ms1 ms2 : List α) (cs1 cs2 : List (trieNode α)) (it : charIter) :
    (trieNode.mk ch pm ms1 lv cs1).matchNode it =
      (trieNode.mk ch pm ms2 lv cs2).matchNode it := rfl

theorem matchTrieF_chainOf_append {α : Type} :
    ∀ (rest : List ChainItem) (fuel : Nat) (lvl : Int) (h : ChainItem)
      (msA msB : List α), msA ≠ [] → ∀ it : charIter,
      matchTrieF fuel (chainOf lvl h rest (msA ++ msB)) it =
        matchTrieF fuel (chainOf lvl h rest msA) it := by
  intro rest
  induction rest with
  | nil =>
    intro fuel lvl h msA msB hA it
    cases msA with
    | nil => exact absurd rfl hA
    | cons a as =>
      cases fuel with
      | zero => rfl
      | succ f => rfl
  | cons h2 rest2 ih =>
    intro fuel lvl h msA msB hA it
    cases fuel with
    | zero => rfl
    | succ f =>
      rw [chainOf, chainOf, matchTrieF, matchTrieF]
      rw [matchNode_ext (itemChar h) (itemPm h) (itemLevel lvl h) []
        [] [chainOf (itemLevel lvl h) h2 rest2 (msA ++ msB)]
        [chainOf (itemLevel lvl h) h2 rest2 msA] it]
      simp only [trieNode.matchs, trieNode.children, trieNode.level,
        List.findSome?_cons, List.findSome?_nil,
        ih f (itemLevel lvl h) h2 msA msB hA]

/-- C6: for two chain tries with the same accepting path (identical chain
skeletons, so `merge` collapses their terminal nodes) and equivalent (equal)
mappers, `canMerge` holds, the merged trie is the same chain whose terminal
matches list is A's matches followed by B's matches, and on every request
the merged trie returns A's match result — the left (earlier-added) trie
wins, because `match` takes the head of the merged matches list. -/
theorem claim_C6_merge_left_wins {α : Type} (its : List ChainItem) (msA msB : List α)
    (hA : msA ≠ []) (mp : Mapper) :
    Trie.canMergeT ⟨chainOf (-1) .rootI its msA, mp⟩ ⟨chainOf (-1) .rootI its msB, mp⟩ = true ∧
      Trie.mergeT ⟨chainOf (-1) .rootI its msA, mp⟩ ⟨chainOf (-1) .rootI its msB, mp⟩ =
        some ⟨chainOf (-1) .rootI its (msA ++ msB), mp⟩ ∧
      ∀ r : Request,
        Trie.matchReq ⟨chainOf (-1) .rootI its (msA ++ msB), mp⟩ r =
          Trie.matchReq ⟨chainOf (-1) .rootI its msA, mp⟩ r := by
  refine ⟨?_, ?_, ?_⟩
  · rw [Trie.canMergeT]
    show (Mapper.equivalent mp mp).isSome = true
    rw [equivalent_self]
    rfl
  · rw [Trie.mergeT]
    show (match Mapper.equivalent mp mp with
      | none => none
      | some mp2 => some (Trie.mk ((chainOf (-1) .rootI its msA).mergeW
          (chainOf (-1) .rootI its msB)) mp2)) = _
    rw [equivalent_self]
    show some (Trie.mk ((chainOf (-1) .rootI its msA).mergeW
        (chainOf (-1) .rootI its msB)) mp) = _
    rw [trieNode.mergeW, nodeDepth_chainOf]
    rw [mergeNodeF_chainOf its (its.length + 1) (-1) .rootI msA msB (by omega)]
  · intro r
    rw [Trie.matchReq, Trie.matchReq]
    show (chainOf (-1) .rootI its (msA ++ msB)).matchW (mp.newIterM r) =
      (chainOf (-1) .rootI its msA).matchW (mp.newIterM r)
    rw [trieNode.matchW, trieNode.matchW, nodeDepth_chainOf, nodeDepth_chainOf]
    exact matchTrieF_chainOf_append its (its.length + 1) (-1) .rootI msA msB hA _

/-- witness for C6: the one-literal chain `a` with payloads 1 and 2: the
merge carries `[1] ++ [2]` at the terminal and routes like the first trie -/
theorem claim_C6_witness :
    ([1] : List Nat) ≠ [] ∧
      Trie.canMergeT ⟨chainOf (-1) .rootI [.litI 'a'] [1], .base .pathB⟩
        ⟨chainOf (-1) .rootI [.litI 'a'] [2], .base .pathB⟩ = true ∧
      Trie.mergeT ⟨chainOf (-1) .rootI [.litI 'a'] [1], .base .pathB⟩
        ⟨chainOf (-1) .rootI [.litI 'a'] [2], .base .pathB⟩ =
        some ⟨chainOf (-1) .rootI [.litI 'a'] ([1] ++ [2]), .base .pathB⟩ ∧
      Trie.matchReq ⟨chainOf (-1) .rootI [.litI 'a'] ([1] ++ [2]), .base .pathB⟩
          ⟨[], [], ("a").data, []⟩ =
        Trie.matchReq ⟨chainOf (-1) .rootI [.litI 'a'] [1], .base .pathB⟩
          ⟨[], [], ("a").data, []⟩ :=
  ⟨by decide,
    (claim_C6_merge_left_wins [.litI 'a'] [1] [2] (by decide) (.base .pathB)).1,
    (claim_C6_merge_left_wins [.litI 'a'] [1] [2] (by decide) (.base .pathB)).2.1,
    (claim_C6_merge_left_wins [.litI 'a'] [1] [2] (by decide) (.base .pathB)).2.2
      ⟨[], [], ("a").data, []⟩⟩

/-! ## Claim C2: compiled router vs naive sequential matching -/

theorem matchTrieF_terminal {α : Type} (fuel : Nat) (ch : Char)
    (pm : Option PatternMatcher) (lv : Int) (ms : List α) (it : charIter) :
    matchTrieF (fuel + 1) (trieNode.mk ch pm ms lv []) it =
      if ((trieNode.mk ch pm ms lv []).matchNode it).1 = false then none
      else if ms.isEmpty = false ∧
          ((trieNode.mk ch pm ms lv []).matchNode it).2.isEnd = true then ms.head?
      else if ms.isEmpty = false ∧
          ((((trieNode.mk ch pm ms lv []).matchNode it).2.level : Int) > lv) then ms.head?
      else none := rfl

theorem matchTrieF_link {α : Type} (fuel : Nat) (ch : Char)
    (pm : Option PatternMatcher) (lv : Int) (c : trieNode α) (it : charIter) :
    matchTrieF (fuel + 1) (trieNode.mk ch pm [] lv [c]) it =
      if ((trieNode.mk ch pm [] lv [c]).matchNode it).1 = false then none
      else matchTrieF fuel c ((trieNode.mk ch pm [] lv [c]).matchNode it).2 := by
  rw [matchTrieF]
  by_cases hr : ((trieNode.mk ch pm [] lv [c]).matchNode it).1 = false
  · rw [if_pos hr, if_pos hr]
  · rw [if_neg hr, if_neg hr]
    rw [if_neg (show ¬ ((trieNode.mk ch pm [] lv [c]).matchs.isEmpty = false ∧
        ((trieNode.mk ch pm [] lv [c]).matchNode it).2.isEnd = true) from
      fun hc => by simp [trieNode.matchs] at hc)]
    simp only [trieNode.children, List.findSome?_cons, List.findSome?_nil]
    cases hfc : matchTrieF fuel c ((trieNode.mk ch pm [] lv [c]).matchNode it).2 with
    | none => simp [trieNode.matchs]
    | some m => simp

theorem matchTrieF_chainOf_none_iff {α : Type} :
    ∀ (rest : List ChainItem) (fuel : Nat) (lvl : Int) (h : ChainItem)
      (msA msB : List α), msA ≠ [] → msB ≠ [] → ∀ it : charIter,
      (matchTrieF fuel (chainOf lvl h rest msA) it = none ↔
        matchTrieF fuel (chainOf lvl h rest msB) it = none) := by
  intro rest
  induction rest with
  | nil =>
    intro fuel lvl h msA msB hA hB it
    cases msA with
    | nil => exact absurd rfl hA
    | cons a as =>
      cases msB with
      | nil => exact absurd rfl hB
      | cons b bs =>
        cases fuel with
        | zero => exact Iff.rfl
        | succ f =>
          rw [chainOf, chainOf, matchTrieF_terminal, matchTrieF_terminal]
          rw [matchNode_ext (itemChar h) (itemPm h) (itemLevel lvl h) (a :: as)
            (b :: bs) [] [] it]
          by_cases hr : ((trieNode.mk (itemChar h) (itemPm h) (b :: bs)
              (itemLevel lvl h) []).matchNode it).1 = false <;>
            by_cases hend : ((trieNode.mk (itemChar h) (itemPm h) (b :: bs)
              (itemLevel lvl h) []).matchNode it).2.isEnd = true <;>
            by_cases hlv : ((((trieNode.mk (itemChar h) (itemPm h) (b :: bs)
              (itemLevel lvl h) []).matchNode it).2.level : Int) > itemLevel lvl h) <;>
            simp [hr, hend, hlv]
  | cons h2 rest2 ih =>
    intro fuel lvl h msA msB hA hB it
    cases fuel with
    | zero => exact Iff.rfl
    | succ f =>
      rw [chainOf, chainOf, matchTrieF_link, matchTrieF_link]
      rw [matchNode_ext (itemChar h) (itemPm h) (itemLevel lvl h) [] []
        [chainOf (itemLevel lvl h) h2 rest2 msA]
        [chainOf (itemLevel lvl h) h2 rest2 msB] it]
      by_cases hr : ((trieNode.mk (itemChar h) (itemPm h) []
          (itemLevel lvl h) [chainOf (itemLevel lvl h) h2 rest2 msB]).matchNode it).1 = false
      · rw [if_pos hr, if_pos hr]
      · rw [if_neg hr, if_neg hr]
        exact ih f (itemLevel lvl h) h2 msA msB hA hB _

theorem compileR_single {M Req α : Type} (ops : MatcherOps M Req α)
    (parse : Str → α → Option M) (e1 : Str) (v1 : α) (m1 : M)
    (hp1 : parse e1 v1 = some m1) :
    compileR ops parse [(e1, v1)] = some [m1] := by
  rw [compileR_eq_specCompile, specCompile]
  rw [show sortDesc ([(e1, v1)].map Prod.fst) = [e1] from rfl]
  rw [List.foldlM_cons]
  rw [show lookupRoute [(e1, v1)] e1 = some v1 by rw [lookupRoute, if_pos rfl]]
  rw [Option.some_bind, hp1, Option.some_bind]
  rw [specMergeStep_none ops [] m1 rfl]
  rfl

theorem compileR_pair {M Req α : Type} (ops : MatcherOps M Req α)
    (parse : Str → α → Option M) (e1 e2 : Str) (v1 v2 : α) (m1 m2 merged : M)
    (hne : e1 ≠ e2) (hlt : lexLt e2 e1 = true)
    (hp1 : parse e1 v1 = some m1) (hp2 : parse e2 v2 = some m2)
    (hcm : ops.canMergeFn m1 m2 = true) (hmg : ops.mergeFn m1 m2 = some merged) :
    compileR ops parse [(e1, v1), (e2, v2)] = some [merged] := by
  rw [compileR_eq_specCompile, specCompile]
  have hsort : sortDesc ([(e1, v1), (e2, v2)].map Prod.fst) = [e1, e2] := by
    show insertDesc e1 (insertDesc e2 []) = [e1, e2]
    rw [show insertDesc e2 [] = [e2] from rfl, insertDesc, if_pos hlt]
  rw [hsort]
  rw [List.foldlM_cons]
  rw [show lookupRoute [(e1, v1), (e2, v2)] e1 = some v1 by rw [lookupRoute, if_pos rfl]]
  rw [Option.some_bind, hp1, Option.some_bind]
  rw [specMergeStep_none ops [] m1 rfl]
  rw [show (([] : List M) ++ [m1]) = [m1] from rfl]
  show List.foldlM
      (fun acc e => (lookupRoute [(e1, v1), (e2, v2)] e).bind
        fun v => (parse e v).bind (specMergeStep ops acc)) [m1] [e2] = some [merged]
  rw [List.foldlM_cons]
  rw [show lookupRoute [(e1, v1), (e2, v2)] e2 = some v2 by
    rw [lookupRoute, if_neg hne, lookupRoute, if_pos rfl]]
  rw [Option.some_bind, hp2, Option.some_bind]
  rw [specMergeStep_some ops [m1] m2 m1 rfl]
  rw [if_pos hcm, hmg]
  rfl

/-- C2: [amended] for two routes whose matchers are chain tries with the
same skeleton and the same mapper (in particular both accepting exactly the
same requests at the same terminal), inserted in reverse-lexicographic
order, compilation succeeds, the two tries are merged into one, and the
compiled router's `Route` agrees with the naive router that tries the two
matchers in insertion order, on every request.  (Without the same-skeleton
restriction the claim is false: see the counterexample, where merging a
three-dimensional chain with a two-dimensional one loses requests that the
naive router matches.) -/
theorem claim_C2_amended {α : Type} (its : List ChainItem) (msA msB : List α)
    (hA : msA ≠ []) (hB : msB ≠ []) (mp : Mapper) (e1 e2 : Str) (hne : e1 ≠ e2)
    (hlt : lexLt e2 e1 = true) (v1 v2 : α) (parse : Str → α → Option (Trie α))
    (hp1 : parse e1 v1 = some ⟨chainOf (-1) .rootI its msA, mp⟩)
    (hp2 : parse e2 v2 = some ⟨chainOf (-1) .rootI its msB, mp⟩) :
    (AddRoute trieOps parse ⟨[], []⟩ e1 v1).2 = none ∧
      (AddRoute trieOps parse (AddRoute trieOps parse ⟨[], []⟩ e1 v1).1 e2 v2).2 = none ∧
      ∀ r : Request,
        (RouteReq trieOps
            (AddRoute trieOps parse (AddRoute trieOps parse ⟨[], []⟩ e1 v1).1 e2 v2).1 r).1 =
          naiveRoute [⟨chainOf (-1) .rootI its msA, mp⟩,
            ⟨chainOf (-1) .rootI its msB, mp⟩] r := by
  have hcm : Trie.canMergeT ⟨chainOf (-1) .rootI its msA, mp⟩
      ⟨chainOf (-1) .rootI its msB, mp⟩ = true := by
    rw [Trie.canMergeT]
    show (Mapper.equivalent mp mp).isSome = true
    rw [equivalent_self]
    rfl
  have hmg : Trie.mergeT ⟨chainOf (-1) .rootI its msA, mp⟩
      ⟨chainOf (-1) .rootI its msB, mp⟩ =
      some ⟨chainOf (-1) .rootI its (msA ++ msB), mp⟩ := by
    rw [Trie.mergeT]
    show (match Mapper.equivalent mp mp with
      | none => none
      | some mp2 => some (Trie.mk ((chainOf (-1) .rootI its msA).mergeW
          (chainOf (-1) .rootI its msB)) mp2)) = _
    rw [equivalent_self]
    show some (Trie.mk ((chainOf (-1) .rootI its msA).mergeW
        (chainOf (-1) .rootI its msB)) mp) = _
    rw [trieNode.mergeW, nodeDepth_chainOf,
      mergeNodeF_chainOf its (its.length + 1) (-1) .rootI msA msB (by omega)]
  have h1 : AddRoute trieOps parse ⟨[], []⟩ e1 v1 =
      ((⟨[⟨chainOf (-1) .rootI its msA, mp⟩], [(e1, v1)]⟩ : RouterState (Trie α) α),
        none) := by
    rw [AddRoute]
    rw [if_neg (show ¬ (lookupRoute ([] : List (Str × α)) e1).isSome = true by
      rw [lookupRoute]
      simp)]
    rw [hp1]
    dsimp only
    rw [show (([] : List (Str × α)) ++ [(e1, v1)]) = [(e1, v1)] from rfl]
    rw [compileR_single trieOps parse e1 v1 _ hp1]
  have h2 : AddRoute trieOps parse
      (⟨[⟨chainOf (-1) .rootI its msA, mp⟩], [(e1, v1)]⟩ : RouterState (Trie α) α)
      e2 v2 =
      ((⟨[⟨chainOf (-1) .rootI its (msA ++ msB), mp⟩], [(e1, v1), (e2, v2)]⟩ :
        RouterState (Trie α) α), none) := by
    rw [AddRoute]
    rw [if_neg (show ¬ (lookupRoute [(e1, v1)] e2).isSome = true by
      rw [lookupRoute, if_neg hne, lookupRoute]
      simp)]
    rw [hp2]
    dsimp only
    rw [show ([(e1, v1)] ++ [(e2, v2)]) = [(e1, v1), (e2, v2)] from rfl]
    rw [compileR_pair trieOps parse e1 e2 v1 v2 _ _ _ hne hlt hp1 hp2 hcm hmg]
  refine ⟨?_, ?_, ?_⟩
  · rw [h1]
  · rw [h1, h2]
  · intro r
    rw [h1, h2]
    show ([(⟨chainOf (-1) .rootI its (msA ++ msB), mp⟩ : Trie α)].findSome?
        (fun m => m.matchReq r)) = _
    have hmerge_eq : Trie.matchReq ⟨chainOf (-1) .rootI its (msA ++ msB), mp⟩ r =
        Trie.matchReq ⟨chainOf (-1) .rootI its msA, mp⟩ r := by
      rw [Trie.matchReq, Trie.matchReq]
      show (chainOf (-1) .rootI its (msA ++ msB)).matchW (mp.newIterM r) =
        (chainOf (-1) .rootI its msA).matchW (mp.newIterM r)
      rw [trieNode.matchW, trieNode.matchW, nodeDepth_chainOf, nodeDepth_chainOf]
      exact matchTrieF_chainOf_append its (its.length + 1) (-1) .rootI msA msB hA _
    cases hca : Trie.matchReq ⟨chainOf (-1) .rootI its msA, mp⟩ r with
    | some m =>
      rw [naiveRoute, List.findSome?_cons, List.findSome?_cons, hmerge_eq, hca]
    | none =>
      have hcb : Trie.matchReq ⟨chainOf (-1) .rootI its msB, mp⟩ r = none := by
        rw [Trie.matchReq] at hca ⊢
        rw [show (⟨chainOf (-1) .rootI its msA, mp⟩ : Trie α).root.matchW
            ((⟨chainOf (-1) .rootI its msA, mp⟩ : Trie α).mapper.newIterM r) =
          matchTrieF (its.length + 1) (chainOf (-1) .rootI its msA)
            (mp.newIterM r) by rw [trieNode.matchW, nodeDepth_chainOf]] at hca
        rw [show (⟨chainOf (-1) .rootI its msB, mp⟩ : Trie α).root.matchW
            ((⟨chainOf (-1) .rootI its msB, mp⟩ : Trie α).mapper.newIterM r) =
          matchTrieF (its.length + 1) (chainOf (-1) .rootI its msB)
            (mp.newIterM r) by rw [trieNode.matchW, nodeDepth_chainOf]]
        exact (matchTrieF_chainOf_none_iff its (its.length + 1) (-1) .rootI
          msA msB hA hB (mp.newIterM r)).1 hca
      rw [naiveRoute, List.findSome?_cons, List.findSome?_cons, hmerge_eq, hca]
      rw [List.findSome?_cons, hcb]

/-- C2: counterexample — the claim fails for mergeable tries of different
dimensionality.  The staged pipeline: `Host("h")`, `Method("G<x>")` and
`Path("/a")` tries chain to `litF` (payload 1), `Host("h")` and
`Method("G<x>")` chain to `litHM 2` (payload 2); the two tries are mergeable
and merge to `litM`; adding the two routes to the router succeeds; yet on the
request (method `G`, host `h`, path `/a`) the compiled router returns `none`
while the naive router returns `some 2` in BOTH orders — merging changed the
semantics. -/
theorem claim_C2_counterexample :
    ((newTrieMatcher (("h").data) (.base .hostB) (1 : Nat)).bind
        (fun a => (newTrieMatcher (("G<x>").data) (.base .methodB) 1).bind
          (fun b => a.chainT b))).bind
      (fun ab => (newTrieMatcher (("/a").data) (.base .pathB) 1).bind
        (fun c => ab.chainT c)) = some ⟨litF, mpHMP⟩ ∧
    (newTrieMatcher (("h").data) (.base .hostB) (2 : Nat)).bind
      (fun a => (newTrieMatcher (("G<x>").data) (.base .methodB) 2).bind
        (fun b => a.chainT b)) = some ⟨litHM 2, mpHM⟩ ∧
    Trie.canMergeT ⟨litF, mpHMP⟩ ⟨litHM 2, mpHM⟩ = true ∧
    Trie.mergeT ⟨litF, mpHMP⟩ ⟨litHM 2, mpHM⟩ = some ⟨litM, mpHMP⟩ ∧
    (AddRoute trieOps parseCE ⟨[], []⟩ exprF 1).2 = none ∧
    (AddRoute trieOps parseCE (AddRoute trieOps parseCE ⟨[], []⟩ exprF 1).1
      exprS 2).2 = none ∧
    (RouteReq trieOps (AddRoute trieOps parseCE
      (AddRoute trieOps parseCE ⟨[], []⟩ exprF 1).1 exprS 2).1 rqCE).1 = none ∧
    naiveRoute [⟨litF, mpHMP⟩, ⟨litHM 2, mpHM⟩] rqCE = some 2 ∧
    naiveRoute [⟨litHM 2, mpHM⟩, ⟨litF, mpHMP⟩] rqCE = some 2 :=
  ⟨by rfl, by rfl, by rfl, by rfl, by decide, by decide, by decide, by decide, by decide⟩

/-- witness for C2's amended theorem: two one-literal chains with payloads 1
(expression `b`, inserted first) and 2 (expression `a`): compilation merges
them and the compiled router routes like the naive insertion order -/
theorem claim_C2_witness :
    (AddRoute trieOps parseW ⟨[], []⟩ (("b").data) 1).2 = none ∧
      (AddRoute trieOps parseW (AddRoute trieOps parseW ⟨[], []⟩ (("b").data) 1).1
        (("a").data) 2).2 = none ∧
      (RouteReq trieOps (AddRoute trieOps parseW
          (AddRoute trieOps parseW ⟨[], []⟩ (("b").data) 1).1 (("a").data) 2).1
        ⟨[], [], ("a").data, []⟩).1 =
        naiveRoute [⟨chainOf (-1) .rootI [.litI 'a'] [1], .base .pathB⟩,
          ⟨chainOf (-1) .rootI [.litI 'a'] [2], .base .pathB⟩]
          ⟨[], [], ("a").data, []⟩ :=
  ⟨(claim_C2_amended [.litI 'a'] [1] [2] (by decide) (by decide) (.base .pathB)
      (("b").data) (("a").data) (by decide) (by decide) 1 2 parseW (by rfl) (by rfl)).1,
    (claim_C2_amended [.litI 'a'] [1] [2] (by decide) (by decide) (.base .pathB)
      (("b").data) (("a").data) (by decide) (by decide) 1 2 parseW (by rfl) (by rfl)).2.1,
    (claim_C2_amended [.litI 'a'] [1] [2] (by decide) (by decide) (.base .pathB)
      (("b").data) (("a").data) (by decide) (by decide) 1 2 parseW (by rfl) (by rfl)).2.2
      ⟨[], [], ("a").data, []⟩⟩

end Route


